import Mathlib

/-!
# multi-git-sync: the synchronisation decision engine

A shallow embedding of `main.go`.  The program talks to three outside parties:
the operating system (`os.UserHomeDir`), the key loader
(`ssh.NewPublicKeysFromFile`) and the go-git repository backend
(`git.PlainOpen`, `git.PlainClone`, `Worktree`, `Checkout`, `Pull`, `Fetch`,
`Reference`, `ResetSparsely`, `Head`).  They are gathered in a record of
state-passing functions over an abstract world `σ`; the Go functions `sync`,
`checkout`, `pull`, `fetch`, `head` and the job body become functions that
thread the world and return, besides the Go result, the list of calls and log
entries they made, in order.
-/

namespace MultiGitSync

/-! ## Go values -/

/-- Go `error` values: a sentinel, or an error wrapping another one. -/
inductive GoError where
  | sentinel (text : String)
  | wrap (text : String) (inner : GoError)
  deriving DecidableEq, Repr

/-- The go-git value `git.NoErrAlreadyUpToDate`. -/
def NoErrAlreadyUpToDate : GoError := .sentinel "already up-to-date"

/-- Go `errors.Is`: the target is met somewhere on the unwrap chain. -/
def errorsIs : GoError → GoError → Bool
  | .sentinel t, target => decide (GoError.sentinel t = target)
  | .wrap t inner, target => decide (GoError.wrap t inner = target) || errorsIs inner target

/-- Go `strings.HasPrefix s p`. -/
def stringsHasPrefix (s p : String) : Bool := p.data.isPrefixOf s.data

/-- Go `s[n:]` for a string that starts with `n` one-byte characters. -/
def sliceFrom (s : String) (n : Nat) : String := ⟨s.data.drop n⟩

/-! ## The configuration types (`main.go`, lines 32-51) -/

structure Auth where
  User : String
  AccessToken : String
  PrivateKeyFile : String
  PrivateKeyPassphrase : String
  deriving DecidableEq, Repr

structure Repo where
  URL : String
  Branch : String
  Depth : Int
  SubPath : String
  Auth : Auth
  DestDir : String
  Schedule : String
  deriving DecidableEq, Repr

/-- The method `Repo.String`:
`fmt.Sprintf("URL:%s, Branch:%s, SubPath:%s, DestDir:%s", ...)`. -/
def Repo.String (r : Repo) : String :=
  "URL:" ++ r.URL ++ ", Branch:" ++ r.Branch ++ ", SubPath:" ++ r.SubPath
    ++ ", DestDir:" ++ r.DestDir

/-! ## go-git values used by the program -/

/-- The type `http.BasicAuth`. -/
structure BasicAuth where
  Username : String
  Password : String
  deriving DecidableEq, Repr

/-- The type `ssh.PublicKeys`: a user and the signer made from the key file. -/
structure PublicKeys where
  User : String
  Signer : String
  deriving DecidableEq, Repr

/-- The interface `transport.AuthMethod` with the two implementations in use. -/
inductive AuthMethod where
  | basic (a : BasicAuth)
  | publicKeys (k : PublicKeys)
  deriving DecidableEq, Repr

/-- Where progress output goes (`Progress: os.Stdout`). -/
inductive Progress where
  | none
  | stdout
  deriving DecidableEq, Repr

structure CloneOptions where
  Auth : AuthMethod
  URL : String
  Depth : Int
  NoCheckout : Bool
  Progress : Progress
  deriving DecidableEq, Repr

structure CheckoutOptions where
  Branch : String
  Force : Bool
  SparseCheckoutDirectories : List String
  deriving DecidableEq, Repr

structure PullOptions where
  RemoteName : String
  Auth : AuthMethod
  SingleBranch : Bool
  Force : Bool
  Progress : Progress
  deriving DecidableEq, Repr

structure FetchOptions where
  RemoteName : String
  Auth : AuthMethod
  Depth : Int
  Progress : Progress
  deriving DecidableEq, Repr

inductive ResetMode where
  | mixedReset
  | hardReset
  | mergeReset
  | softReset
  deriving DecidableEq, Repr

structure ResetOptions where
  Commit : String
  Mode : ResetMode
  deriving DecidableEq, Repr

/-- The type `plumbing.Reference`, with its name and the hash it points to. -/
structure Reference where
  Name : String
  Hash : String
  deriving DecidableEq, Repr

/-- The constant `git.DefaultRemoteName`. -/
def DefaultRemoteName : String := "origin"

/-- The function `plumbing.NewBranchReferenceName`. -/
def NewBranchReferenceName (name : String) : String := "refs/heads/" ++ name

/-- The function `plumbing.NewRemoteReferenceName`. -/
def NewRemoteReferenceName (remote name : String) : String :=
  "refs/remotes/" ++ remote ++ "/" ++ name

/-! ## Logging -/

inductive Level where
  | info
  | error
  deriving DecidableEq, Repr

/-- The attributes the program attaches to a log entry with `slog.Any`. -/
inductive Attr where
  | repo (key : String) (r : Repo)
  | err (key : String) (e : GoError)
  | str (key : String) (v : String)
  deriving DecidableEq, Repr

/-! ## Calls and log entries, in the order the program makes them -/

inductive Event (ρ ω : Type) where
  | userHomeDir
  | newPublicKeysFromFile (user pemFile password : String)
  | plainOpen (path : String)
  | plainClone (path : String) (isBare : Bool) (o : CloneOptions)
  | worktree (r : ρ)
  | checkout (w : ω) (o : CheckoutOptions)
  | pull (w : ω) (o : PullOptions)
  | fetch (r : ρ) (o : FetchOptions)
  | reference (r : ρ) (name : String) (resolved : Bool)
  | resetSparsely (w : ω) (o : ResetOptions) (dirs : List String)
  | head (r : ρ)
  | log (level : Level) (msg : String) (attrs : List Attr)
  deriving DecidableEq, Repr

/-! ## `path/filepath` on a Unix system -/

/-- One element of a path met by `filepath.Clean`; `stack` holds the elements
kept so far, the last one first.  Empty elements and `.` are dropped, `..`
removes the last kept element when there is one to remove, and otherwise is
kept only in a path that is not rooted. -/
def cleanStep (rooted : Bool) (stack : List (List Char)) (el : List Char) :
    List (List Char) :=
  if el = [] ∨ el = ['.'] then stack
  else if el = ['.', '.'] then
    match stack with
    | [] => if rooted then [] else [el]
    | top :: rest => if top = ['.', '.'] then el :: stack else rest
  else el :: stack

/-- The function `filepath.Clean`, on the characters of the path. -/
def cleanChars (path : List Char) : List Char :=
  if path = [] then ['.']
  else
    let rooted : Bool := path.head? = some '/'
    let stack := (path.splitOn '/').foldl (cleanStep rooted) []
    let body := List.intercalate ['/'] stack.reverse
    if rooted then '/' :: body else if stack = [] then ['.'] else body

/-- The function `filepath.Clean`. -/
def filepathClean (path : String) : String := ⟨cleanChars path.data⟩

/-- The function `filepath.Join`: the elements from the first non-empty one on
are joined with the separator and the result is cleaned; with no non-empty
element the result is the empty string. -/
def filepathJoin : List String → String
  | [] => ""
  | e :: rest =>
    if e ≠ "" then filepathClean ⟨List.intercalate ['/'] ((e :: rest).map String.data)⟩
    else filepathJoin rest

/-! ## The outside world -/

/-- The operating system, the key loader and the repository backend, as
functions of the state of the world `σ`; `ρ` is the type of an opened
repository (`*git.Repository`) and `ω` of its working tree (`*git.Worktree`). -/
structure Backend (σ ρ ω : Type) where
  userHomeDir : σ → (String × Option GoError) × σ
  newPublicKeysFromFile : σ → String → String → String → Except GoError PublicKeys × σ
  plainOpen : σ → String → Except GoError ρ × σ
  plainClone : σ → String → Bool → CloneOptions → Except GoError ρ × σ
  worktree : σ → ρ → Except GoError ω × σ
  checkout : σ → ω → CheckoutOptions → Option GoError × σ
  pull : σ → ω → PullOptions → Option GoError × σ
  fetch : σ → ρ → FetchOptions → Option GoError × σ
  reference : σ → ρ → String → Bool → Except GoError Reference × σ
  resetSparsely : σ → ω → ResetOptions → List String → Option GoError × σ
  head : σ → ρ → Except GoError Reference × σ

/-- What a run of one of the Go functions returning `error` leaves behind: the
returned error (`none` is `nil`), the calls and log entries made, and the
world afterwards. -/
structure Run (σ ρ ω : Type) where
  err : Option GoError
  trace : List (Event ρ ω)
  state : σ

/-- The same run, made after the events `pre`. -/
def Run.after {σ ρ ω : Type} (pre : List (Event ρ ω)) (r : Run σ ρ ω) : Run σ ρ ω :=
  { r with trace := pre ++ r.trace }

section Program

variable {σ ρ ω : Type}

/-! ## The program (`main.go`, lines 131-280) -/

/-- Lines 170-174 of `sync`: the key file with a leading `~/` replaced by the
home directory.  The error of `os.UserHomeDir` is dropped, as in the source. -/
def expandKeyFile (b : Backend σ ρ ω) (s : σ) (keyFile : String) :
    String × List (Event ρ ω) × σ :=
  if stringsHasPrefix keyFile "~/" then
    match b.userHomeDir s with
    | ((homedir, _), s1) => (filepathJoin [homedir, sliceFrom keyFile 2], [Event.userHomeDir], s1)
  else (keyFile, [], s)

/-- Lines 162-179 of `sync`: the credential for the transport, chosen by the
prefix of the URL. -/
def resolveAuth (b : Backend σ ρ ω) (s : σ) (repo : Repo) :
    Except GoError AuthMethod × List (Event ρ ω) × σ :=
  if stringsHasPrefix repo.URL "http" then
    (.ok (.basic { Username := repo.Auth.User, Password := repo.Auth.AccessToken }), [], s)
  else
    match expandKeyFile b s repo.Auth.PrivateKeyFile with
    | (keyFile, tr, s1) =>
      let ev := Event.newPublicKeysFromFile repo.Auth.User keyFile repo.Auth.PrivateKeyPassphrase
      match b.newPublicKeysFromFile s1 repo.Auth.User keyFile repo.Auth.PrivateKeyPassphrase with
      | (.error err, s2) => (.error err, tr ++ [ev], s2)
      | (.ok k, s2) => (.ok (.publicKeys k), tr ++ [ev], s2)

/-- The function `checkout` (lines 198-226). -/
def checkout (b : Backend σ ρ ω) (s : σ) (url branch subPath : String) (auth : AuthMethod)
    (destDir : String) (depth : Int) : Run σ ρ ω :=
  let cloneOpts : CloneOptions :=
    { Auth := auth, URL := url, Depth := depth, NoCheckout := true, Progress := .stdout }
  match b.plainClone s destDir false cloneOpts with
  | (.error err, s1) => ⟨some err, [.plainClone destDir false cloneOpts], s1⟩
  | (.ok r, s1) =>
    match b.worktree s1 r with
    | (.error err, s2) => ⟨some err, [.plainClone destDir false cloneOpts, .worktree r], s2⟩
    | (.ok w, s2) =>
      let branchRefName := NewBranchReferenceName branch
      let branchCoOpts : CheckoutOptions :=
        { Branch := branchRefName, Force := true,
          SparseCheckoutDirectories := if subPath ≠ "" then [subPath] else [] }
      match b.checkout s2 w branchCoOpts with
      | (err, s3) =>
        ⟨err, [.plainClone destDir false cloneOpts, .worktree r, .checkout w branchCoOpts], s3⟩

/-- The function `pull` (lines 228-245). -/
def pull (b : Backend σ ρ ω) (s : σ) (r : ρ) (auth : AuthMethod) : Run σ ρ ω :=
  match b.worktree s r with
  | (.error err, s1) => ⟨some err, [.worktree r], s1⟩
  | (.ok w, s1) =>
    let opts : PullOptions :=
      { RemoteName := DefaultRemoteName, Auth := auth, SingleBranch := true, Force := true,
        Progress := .stdout }
    match b.pull s1 w opts with
    | (none, s2) => ⟨none, [.worktree r, .pull w opts], s2⟩
    | (some err, s2) =>
      if errorsIs err NoErrAlreadyUpToDate then ⟨none, [.worktree r, .pull w opts], s2⟩
      else ⟨some err, [.worktree r, .pull w opts], s2⟩

/-- The function `fetch` (lines 247-272). -/
def fetch (b : Backend σ ρ ω) (s : σ) (r : ρ) (subPath branch : String) (auth : AuthMethod)
    (depth : Int) : Run σ ρ ω :=
  let opts : FetchOptions :=
    { RemoteName := DefaultRemoteName, Auth := auth, Depth := depth, Progress := .stdout }
  let fetched := b.fetch s r opts
  let stop : Option GoError :=
    match fetched.1 with
    | none => none
    | some err => if errorsIs err NoErrAlreadyUpToDate then none else some err
  match stop with
  | some err => ⟨some err, [.fetch r opts], fetched.2⟩
  | none =>
    match b.worktree fetched.2 r with
    | (.error err, s2) => ⟨some err, [.fetch r opts, .worktree r], s2⟩
    | (.ok w, s2) =>
      let refName := NewRemoteReferenceName DefaultRemoteName branch
      match b.reference s2 r refName true with
      | (.error err, s3) =>
        ⟨some err, [.fetch r opts, .worktree r, .reference r refName true], s3⟩
      | (.ok remoteRef, s3) =>
        let resetOpts : ResetOptions := { Commit := remoteRef.Hash, Mode := .hardReset }
        match b.resetSparsely s3 w resetOpts [subPath] with
        | (err, s4) =>
          ⟨err, [.fetch r opts, .worktree r, .reference r refName true,
                 .resetSparsely w resetOpts [subPath]], s4⟩

/-- The function `head` (lines 274-280). -/
def head (b : Backend σ ρ ω) (s : σ) (path : String) :
    Except GoError Reference × List (Event ρ ω) × σ :=
  match b.plainOpen s path with
  | (.error err, s1) => (.error err, [.plainOpen path], s1)
  | (.ok r, s1) =>
    match b.head s1 r with
    | (res, s2) => (res, [.plainOpen path, .head r], s2)

/-- The log entry of line 182. -/
def cloneLog (repo : Repo) : Event ρ ω :=
  .log .info ("git clone --no-checkout " ++ repo.URL ++ " -b " ++ repo.Branch ++ " "
    ++ repo.DestDir) [.str "SubPath" repo.SubPath]

/-- The log entry of line 188. -/
def pullLog (repo : Repo) : Event ρ ω :=
  .log .info ("git pull " ++ repo.DestDir) [.repo "Repo" repo]

/-- The log entry of line 191. -/
def fetchLog (repo : Repo) : Event ρ ω :=
  .log .info ("git fetch --depth " ++ toString repo.Depth) [.repo "Repo" repo]

/-- The function `sync` (lines 161-196). -/
def sync (b : Backend σ ρ ω) (s : σ) (repo : Repo) : Run σ ρ ω :=
  match resolveAuth b s repo with
  | (.error err, tr, s1) => ⟨some err, tr, s1⟩
  | (.ok gitAuth, tr, s1) =>
    match b.plainOpen s1 repo.DestDir with
    | (.error _, s2) =>
      (checkout b s2 repo.URL repo.Branch repo.SubPath gitAuth repo.DestDir repo.Depth).after
        (tr ++ [.plainOpen repo.DestDir, cloneLog repo])
    | (.ok r, s2) =>
      if repo.Depth ≤ 0 then
        (pull b s2 r gitAuth).after (tr ++ [.plainOpen repo.DestDir, pullLog repo])
      else
        (fetch b s2 r repo.SubPath repo.Branch gitAuth repo.Depth).after
          (tr ++ [.plainOpen repo.DestDir, fetchLog repo])

/-- The log entry of lines 135-138. -/
def failedLog (repo : Repo) (err : GoError) : Event ρ ω :=
  .log .error "Sync git repo failed." [.repo "Repo" repo, .err "error" err]

/-- The log entry of line 142. -/
def headLog (repo : Repo) (ref : Reference) : Event ρ ω :=
  .log .info ("git show-ref --head HEAD: " ++ ref.Hash) [.repo "Repo" repo]

/-- The log entry of line 144. -/
def completedLog (repo : Repo) : Event ρ ω :=
  .log .info "Sync git repo completed." [.repo "Repo" repo]

/-- The task given to the scheduler for one repository (lines 132-146).  It
returns nothing; what is left is the events and the world. -/
def job (b : Backend σ ρ ω) (s : σ) (repo : Repo) : List (Event ρ ω) × σ :=
  let synced := sync b s repo
  match synced.err with
  | some err => (synced.trace ++ [failedLog repo err], synced.state)
  | none =>
    match head b synced.state repo.DestDir with
    | (.ok ref, tr, s1) => (synced.trace ++ tr ++ [headLog repo ref, completedLog repo], s1)
    | (.error _, tr, s1) => (synced.trace ++ tr ++ [completedLog repo], s1)

end Program

/-! ## Kinds of events -/

section Kinds

variable {ρ ω : Type}

/-- The event is a call of `git.PlainClone`. -/
def Event.isClone : Event ρ ω → Bool
  | .plainClone _ _ _ => true
  | _ => false

/-- The event is a call of `Worktree.Checkout`. -/
def Event.isCheckout : Event ρ ω → Bool
  | .checkout _ _ => true
  | _ => false

/-- The event is a call of `Worktree.Pull`. -/
def Event.isPull : Event ρ ω → Bool
  | .pull _ _ => true
  | _ => false

/-- The event is a call of `Repository.Fetch`. -/
def Event.isFetch : Event ρ ω → Bool
  | .fetch _ _ => true
  | _ => false

/-- The event is a call of `Worktree.ResetSparsely`. -/
def Event.isReset : Event ρ ω → Bool
  | .resetSparsely _ _ _ => true
  | _ => false

/-- The event is a call to the repository backend (go-git), as opposed to the
operating system, the key loader or the logger. -/
def Event.isBackendOp : Event ρ ω → Bool
  | .userHomeDir => false
  | .newPublicKeysFromFile _ _ _ => false
  | .log _ _ _ => false
  | _ => true

/-- The event belongs to the resolution of the credential: the look-up of the
home directory or the load of the key file. -/
def Event.isAuthStep : Event ρ ω → Bool
  | .userHomeDir => true
  | .newPublicKeysFromFile _ _ _ => true
  | _ => false

/-- The event is a call of `Repository.Head`. -/
def Event.isHead : Event ρ ω → Bool
  | .head _ => true
  | _ => false

/-- The event is the log entry that shows the hash of HEAD. -/
def Event.isHeadLog : Event ρ ω → Bool
  | .log _ msg _ => stringsHasPrefix msg "git show-ref --head HEAD: "
  | _ => false

/-- The event is an entry logged at level error. -/
def Event.isErrorLog : Event ρ ω → Bool
  | .log .error _ _ => true
  | _ => false

/-- The credential a backend call is made with, for the calls that take one. -/
def Event.auth? : Event ρ ω → Option AuthMethod
  | .plainClone _ _ o => some o.Auth
  | .pull _ o => some o.Auth
  | .fetch _ o => some o.Auth
  | _ => none

/-- The sparse restriction a call that writes the working tree is made with:
the sparse directories of a checkout, the directories of a restricted reset;
`Worktree.Pull` takes none. -/
def Event.sparseDirs? : Event ρ ω → Option (List String)
  | .checkout _ o => some o.SparseCheckoutDirectories
  | .resetSparsely _ _ dirs => some dirs
  | _ => none

/-- The event is a call that writes files of the working tree. -/
def Event.writesWorktree : Event ρ ω → Bool
  | .checkout _ _ => true
  | .pull _ _ => true
  | .resetSparsely _ _ _ => true
  | _ => false

end Kinds

/-! ## A small concrete world -/

/-- A world for evaluating the program: the directories that hold a repository.
The home directory is `/home/u`, the only readable key file is
`/home/u/.ssh/id_rsa`, the only branch of the remote is `main`, and the remote
never has anything new; the repository in the directory `offline` cannot reach
its remote, and the one in the directory `unborn` has no HEAD. -/
def demo : Backend (List String) String String where
  userHomeDir := fun s => (("/home/u", none), s)
  newPublicKeysFromFile := fun s user pemFile _ =>
    if pemFile = "/home/u/.ssh/id_rsa" then (.ok { User := user, Signer := "key" }, s)
    else (.error (.sentinel "open: no such file or directory"), s)
  plainOpen := fun s path =>
    if path ∈ s then (.ok path, s) else (.error (.sentinel "repository does not exist"), s)
  plainClone := fun s path _ _ =>
    if path ∈ s then (.error (.sentinel "repository already exists"), s)
    else (.ok path, path :: s)
  worktree := fun s r => (.ok r, s)
  checkout := fun s _ o =>
    if o.Branch = "refs/heads/main" then (none, s)
    else (some (.sentinel "reference not found"), s)
  pull := fun s w _ =>
    if w = "offline" then (some (.sentinel "network is unreachable"), s)
    else (some NoErrAlreadyUpToDate, s)
  fetch := fun s r _ =>
    if r = "offline" then (some (.sentinel "network is unreachable"), s)
    else (some NoErrAlreadyUpToDate, s)
  reference := fun s _ name _ =>
    if name = "refs/remotes/origin/main" then (.ok { Name := name, Hash := "c0ffee" }, s)
    else (.error (.sentinel "reference not found"), s)
  resetSparsely := fun s _ _ _ => (none, s)
  head := fun s r =>
    if r = "unborn" then (.error (.sentinel "reference not found"), s)
    else (.ok { Name := "HEAD", Hash := "c0ffee" }, s)

/-- A descriptor of an HTTP remote. -/
def demoRepo : Repo :=
  { URL := "https://example.org/r.git", Branch := "main", Depth := 0, SubPath := "foo",
    Auth := { User := "u", AccessToken := "t", PrivateKeyFile := "", PrivateKeyPassphrase := "" },
    DestDir := "out", Schedule := "* * * * *" }

/-- A descriptor of an SSH remote whose key file is readable. -/
def demoSshRepo : Repo :=
  { URL := "git@example.org:r.git", Branch := "main", Depth := 0, SubPath := "",
    Auth := { User := "git", AccessToken := "", PrivateKeyFile := "~/.ssh/id_rsa",
              PrivateKeyPassphrase := "" },
    DestDir := "out", Schedule := "* * * * *" }

/-- A descriptor of an SSH remote whose key file does not exist. -/
def demoBadKeyRepo : Repo :=
  { URL := "git@example.org:r.git", Branch := "main", Depth := 0, SubPath := "",
    Auth := { User := "git", AccessToken := "", PrivateKeyFile := "~/.ssh/missing",
              PrivateKeyPassphrase := "" },
    DestDir := "out", Schedule := "* * * * *" }

/-- A descriptor whose destination holds a repository that cannot reach its
remote. -/
def demoOfflineRepo : Repo := { demoRepo with DestDir := "offline" }

/-- A descriptor whose destination holds a repository without HEAD. -/
def demoUnbornRepo : Repo := { demoRepo with DestDir := "unborn" }

/-- A descriptor with a positive depth and no sub-path. -/
def demoShallowRepo : Repo := { demoRepo with Depth := 1, SubPath := "" }

/-- A descriptor of an SSH remote whose key file is given with `..` after the
leading `~/`. -/
def demoEscapeRepo : Repo :=
  { demoSshRepo with
    Auth := { User := "git", AccessToken := "", PrivateKeyFile := "~/../other/.ssh/id_rsa",
              PrivateKeyPassphrase := "" } }

/-- A descriptor of an SSH remote whose key file starts with `~user/`. -/
def demoTildeUserRepo : Repo :=
  { demoSshRepo with
    Auth := { User := "git", AccessToken := "", PrivateKeyFile := "~git/.ssh/id_rsa",
              PrivateKeyPassphrase := "" } }

/-- A descriptor of an SSH remote whose key file is `~` alone. -/
def demoTildeRepo : Repo :=
  { demoSshRepo with
    Auth := { User := "git", AccessToken := "", PrivateKeyFile := "~",
              PrivateKeyPassphrase := "" } }

/-- A descriptor with a positive depth whose branch the remote does not have. -/
def demoGoneBranchRepo : Repo := { demoRepo with Depth := 2, Branch := "gone" }

/-! ## Text properties used in the statements -/

/-- The text `needle` occurs in the text `hay` (Go `strings.Contains`). -/
def occursIn (needle hay : String) : Prop := needle.data <:+: hay.data

/-- The descriptor with everything but the URL, the branch, the sub-path and
the destination erased. -/
def Repo.identityOnly (r : Repo) : Repo :=
  { URL := r.URL, Branch := r.Branch, Depth := 0, SubPath := r.SubPath,
    Auth := { User := "", AccessToken := "", PrivateKeyFile := "", PrivateKeyPassphrase := "" },
    DestDir := r.DestDir, Schedule := "" }

/-- A descriptor whose access token is the word `Branch` and whose four
identity fields are empty. -/
def demoLabelTokenRepo : Repo :=
  { URL := "", Branch := "", Depth := 0, SubPath := "",
    Auth := { User := "u", AccessToken := "Branch", PrivateKeyFile := "",
              PrivateKeyPassphrase := "" },
    DestDir := "", Schedule := "" }

/-- The path `path` is the directory `dir` or lies below it: `dir`, closed by
a separator when it does not end with one, is the beginning of `path`. -/
def liesUnder (dir path : String) : Bool :=
  path == dir
    || (if dir.data.getLast? = some '/' then dir.data else dir.data ++ ['/']).isPrefixOf path.data

/-- The descriptor `demoRepo` with other credentials, depth and schedule. -/
def demoOtherCredentials : Repo :=
  { demoRepo with
    Depth := 3, Schedule := "0 * * * *",
    Auth := { User := "someone", AccessToken := "s3cret", PrivateKeyFile := "~/.ssh/id_rsa",
              PrivateKeyPassphrase := "hunter2" } }

/-- The element is kept by `filepath.Clean`: it is neither empty nor `.`
(and here not `..`). -/
def keptElement (el : List Char) : Bool := decide (el ≠ [] ∧ el ≠ ['.'])

/-- The test go-git applies to the entries of the index when `ResetSparsely`
is given the directories `dirs` (`Index.SkipUnless`, called for a non-empty
list only): the entry `name` stays in the working tree when the list is empty
or one of the directories is a prefix of the name. -/
def resetKeeps (dirs : List String) (name : String) : Bool :=
  dirs.isEmpty || dirs.any (fun dir => stringsHasPrefix name dir)

section Lemmas

variable {σ ρ ω : Type}

theorem expandKeyFile_trace (b : Backend σ ρ ω) (s : σ) (keyFile : String) :
    ∀ ev ∈ (expandKeyFile b s keyFile).2.1, ev = Event.userHomeDir := by
  unfold expandKeyFile
  split <;> simp

theorem resolveAuth_trace (b : Backend σ ρ ω) (s : σ) (repo : Repo) :
    ∀ ev ∈ (resolveAuth b s repo).2.1, ev.isAuthStep = true := by
  intro ev hev
  unfold resolveAuth at hev
  split at hev
  · simp at hev
  · have hk := expandKeyFile_trace b s repo.Auth.PrivateKeyFile
    revert hev
    rcases hx : expandKeyFile b s repo.Auth.PrivateKeyFile with ⟨keyFile, tr, s1⟩
    rw [hx] at hk
    simp only at hk ⊢
    split <;>
    · simp only [List.mem_append, List.mem_singleton]
      rintro (h | h)
      · rw [hk ev h]; rfl
      · rw [h]; rfl

theorem checkout_trace (b : Backend σ ρ ω) (s : σ) (url branch subPath : String)
    (auth : AuthMethod) (destDir : String) (depth : Int) :
    ∀ ev ∈ (checkout b s url branch subPath auth destDir depth).trace,
      ev.isPull = false ∧ ev.isFetch = false ∧ ev.isReset = false ∧ ev.isAuthStep = false
        ∧ ev.isErrorLog = false ∧ ev.isHead = false ∧ ev.isHeadLog = false := by
  intro ev hev
  unfold checkout at hev
  simp only at hev
  split at hev
  · simp at hev; subst hev; simp [Event.isPull, Event.isFetch, Event.isReset, Event.isAuthStep, Event.isErrorLog, Event.isHead, Event.isHeadLog]
  · split at hev
    · simp at hev; rcases hev with h | h <;> subst h <;>
        simp [Event.isPull, Event.isFetch, Event.isReset, Event.isAuthStep, Event.isErrorLog, Event.isHead, Event.isHeadLog]
    · simp at hev; rcases hev with h | h | h <;> subst h <;>
        simp [Event.isPull, Event.isFetch, Event.isReset, Event.isAuthStep, Event.isErrorLog, Event.isHead, Event.isHeadLog]

end Lemmas

section Lemmas

variable {σ ρ ω : Type}

theorem pull_trace (b : Backend σ ρ ω) (s : σ) (r : ρ) (auth : AuthMethod) :
    ∀ ev ∈ (pull b s r auth).trace,
      ev.isClone = false ∧ ev.isCheckout = false ∧ ev.isFetch = false ∧ ev.isReset = false
        ∧ ev.isAuthStep = false ∧ ev.isErrorLog = false ∧ ev.isHead = false
        ∧ ev.isHeadLog = false := by
  intro ev hev
  unfold pull at hev
  split at hev
  · simp at hev; subst hev; simp [Event.isClone, Event.isCheckout, Event.isFetch, Event.isReset, Event.isAuthStep, Event.isErrorLog, Event.isHead, Event.isHeadLog]
  · simp only at hev
    split at hev
    · simp at hev; rcases hev with h | h <;> subst h <;>
        simp [Event.isClone, Event.isCheckout, Event.isFetch, Event.isReset, Event.isAuthStep, Event.isErrorLog, Event.isHead, Event.isHeadLog]
    · split at hev <;>
      · simp at hev; rcases hev with h | h <;> subst h <;>
          simp [Event.isClone, Event.isCheckout, Event.isFetch, Event.isReset, Event.isAuthStep, Event.isErrorLog, Event.isHead, Event.isHeadLog]

theorem fetch_trace (b : Backend σ ρ ω) (s : σ) (r : ρ) (subPath branch : String)
    (auth : AuthMethod) (depth : Int) :
    ∀ ev ∈ (fetch b s r subPath branch auth depth).trace,
      ev.isClone = false ∧ ev.isCheckout = false ∧ ev.isPull = false ∧ ev.isAuthStep = false
        ∧ ev.isErrorLog = false ∧ ev.isHead = false ∧ ev.isHeadLog = false := by
  intro ev hev
  unfold fetch at hev
  simp only at hev
  split at hev
  · simp at hev; subst hev; simp [Event.isClone, Event.isCheckout, Event.isPull, Event.isAuthStep, Event.isErrorLog, Event.isHead, Event.isHeadLog]
  · split at hev
    · simp at hev; rcases hev with h | h <;> subst h <;>
        simp [Event.isClone, Event.isCheckout, Event.isPull, Event.isAuthStep, Event.isErrorLog, Event.isHead, Event.isHeadLog]
    · split at hev
      · simp at hev; rcases hev with h | h | h <;> subst h <;>
          simp [Event.isClone, Event.isCheckout, Event.isPull, Event.isAuthStep, Event.isErrorLog, Event.isHead, Event.isHeadLog]
      · simp at hev; rcases hev with h | h | h | h <;> subst h <;>
          simp [Event.isClone, Event.isCheckout, Event.isPull, Event.isAuthStep, Event.isErrorLog, Event.isHead, Event.isHeadLog]

/-- The events before the strategy runs: those of the credential, the probe of
the destination and one log entry. -/
theorem prelude_kinds (b : Backend σ ρ ω) (s : σ) (repo : Repo) (path : String)
    (msg : String) (attrs : List Attr) :
    ∀ ev ∈ (resolveAuth b s repo).2.1 ++ [Event.plainOpen path, Event.log .info msg attrs],
      ev.isClone = false ∧ ev.isCheckout = false ∧ ev.isPull = false ∧ ev.isFetch = false
        ∧ ev.isReset = false ∧ ev.isErrorLog = false ∧ ev.isHead = false := by
  intro ev hev
  rw [List.mem_append] at hev
  rcases hev with h | h
  · have hb := resolveAuth_trace b s repo ev h
    cases ev <;> simp_all [Event.isAuthStep, Event.isClone, Event.isCheckout, Event.isPull,
      Event.isFetch, Event.isReset, Event.isErrorLog, Event.isHead]
  · simp at h
    rcases h with h | h <;> subst h <;>
      simp [Event.isClone, Event.isCheckout, Event.isPull, Event.isFetch, Event.isReset,
        Event.isErrorLog, Event.isHead]

end Lemmas


section Lemmas

variable {σ ρ ω : Type}

theorem checkout_auth (b : Backend σ ρ ω) (s : σ) (url branch subPath : String)
    (auth : AuthMethod) (destDir : String) (depth : Int) :
    ∀ ev ∈ (checkout b s url branch subPath auth destDir depth).trace,
      ∀ a, ev.auth? = some a → a = auth := by
  intro ev hev a
  unfold checkout at hev
  simp only at hev
  split at hev
  · simp at hev; subst hev; simp [Event.auth?]; exact fun h => h.symm
  · split at hev
    · simp at hev; rcases hev with h | h <;> subst h <;> simp [Event.auth?]
      exact fun h => h.symm
    · simp at hev; rcases hev with h | h | h <;> subst h <;> simp [Event.auth?]
      exact fun h => h.symm

theorem pull_auth (b : Backend σ ρ ω) (s : σ) (r : ρ) (auth : AuthMethod) :
    ∀ ev ∈ (pull b s r auth).trace, ∀ a, ev.auth? = some a → a = auth := by
  intro ev hev a
  unfold pull at hev
  split at hev
  · simp at hev; subst hev; simp [Event.auth?]
  · simp only at hev
    split at hev
    · simp at hev; rcases hev with h | h <;> subst h <;> simp [Event.auth?]
      exact fun h => h.symm
    · split at hev <;>
      · simp at hev; rcases hev with h | h <;> subst h <;> simp [Event.auth?]
        exact fun h => h.symm

theorem fetch_auth (b : Backend σ ρ ω) (s : σ) (r : ρ) (subPath branch : String)
    (auth : AuthMethod) (depth : Int) :
    ∀ ev ∈ (fetch b s r subPath branch auth depth).trace,
      ∀ a, ev.auth? = some a → a = auth := by
  intro ev hev a
  unfold fetch at hev
  simp only at hev
  split at hev
  · simp at hev; subst hev; simp [Event.auth?]; exact fun h => h.symm
  · split at hev
    · simp at hev; rcases hev with h | h <;> subst h <;> simp [Event.auth?]
      exact fun h => h.symm
    · split at hev
      · simp at hev; rcases hev with h | h | h <;> subst h <;> simp [Event.auth?]
        exact fun h => h.symm
      · simp at hev; rcases hev with h | h | h | h <;> subst h <;> simp [Event.auth?]
        exact fun h => h.symm

theorem cloneLog_kinds (repo : Repo) :
    (cloneLog repo : Event ρ ω).isAuthStep = false ∧ (cloneLog repo : Event ρ ω).isErrorLog = false
      ∧ (cloneLog repo : Event ρ ω).isHead = false
      ∧ (cloneLog repo : Event ρ ω).isHeadLog = false := by
  have h1 : "git clone --no-checkout ".data
      = 'g' :: 'i' :: 't' :: ' ' :: 'c' :: "lone --no-checkout ".data := rfl
  have h2 : "git show-ref --head HEAD: ".data
      = 'g' :: 'i' :: 't' :: ' ' :: 's' :: "how-ref --head HEAD: ".data := rfl
  refine ⟨rfl, rfl, rfl, ?_⟩
  simp only [cloneLog, Event.isHeadLog, stringsHasPrefix, String.data_append, h1, h2,
    List.cons_append, List.isPrefixOf]
  simp

theorem pullLog_kinds (repo : Repo) :
    (pullLog repo : Event ρ ω).isAuthStep = false ∧ (pullLog repo : Event ρ ω).isErrorLog = false
      ∧ (pullLog repo : Event ρ ω).isHead = false
      ∧ (pullLog repo : Event ρ ω).isHeadLog = false := by
  have h1 : "git pull ".data = 'g' :: 'i' :: 't' :: ' ' :: 'p' :: "ull ".data := rfl
  have h2 : "git show-ref --head HEAD: ".data
      = 'g' :: 'i' :: 't' :: ' ' :: 's' :: "how-ref --head HEAD: ".data := rfl
  refine ⟨rfl, rfl, rfl, ?_⟩
  simp only [pullLog, Event.isHeadLog, stringsHasPrefix, String.data_append, h1, h2,
    List.cons_append, List.isPrefixOf]
  simp

theorem fetchLog_kinds (repo : Repo) :
    (fetchLog repo : Event ρ ω).isAuthStep = false
      ∧ (fetchLog repo : Event ρ ω).isErrorLog = false
      ∧ (fetchLog repo : Event ρ ω).isHead = false
      ∧ (fetchLog repo : Event ρ ω).isHeadLog = false := by
  have h1 : "git fetch --depth ".data = 'g' :: 'i' :: 't' :: ' ' :: 'f' :: "etch --depth ".data :=
    rfl
  have h2 : "git show-ref --head HEAD: ".data
      = 'g' :: 'i' :: 't' :: ' ' :: 's' :: "how-ref --head HEAD: ".data := rfl
  refine ⟨rfl, rfl, rfl, ?_⟩
  simp only [fetchLog, Event.isHeadLog, stringsHasPrefix, String.data_append, h1, h2,
    List.cons_append, List.isPrefixOf]
  simp

/-- The events of `sync` are those of the credential followed by the probe of
the destination, a log entry at level info and the events of the strategy;
none of the latter belongs to the resolution of the credential, is logged at
level error, reads HEAD or shows the hash of HEAD. -/
theorem sync_trace_split (b : Backend σ ρ ω) (s : σ) (repo : Repo) :
    ∃ rest, (sync b s repo).trace = (resolveAuth b s repo).2.1 ++ rest
      ∧ ∀ ev ∈ rest, ev.isAuthStep = false ∧ ev.isErrorLog = false ∧ ev.isHead = false
          ∧ ev.isHeadLog = false := by
  have hlog : ∀ (path : String) (lg : Event ρ ω) (l : List (Event ρ ω)),
      (lg.isAuthStep = false ∧ lg.isErrorLog = false ∧ lg.isHead = false
        ∧ lg.isHeadLog = false) →
      (∀ ev ∈ l, ev.isAuthStep = false ∧ ev.isErrorLog = false ∧ ev.isHead = false
        ∧ ev.isHeadLog = false) →
      ∀ ev ∈ [Event.plainOpen path, lg] ++ l,
        ev.isAuthStep = false ∧ ev.isErrorLog = false ∧ ev.isHead = false
          ∧ ev.isHeadLog = false := by
    intro path lg l hlg hl ev h
    rw [List.mem_append] at h
    rcases h with h | h
    · simp at h
      rcases h with h | h
      · subst h; simp [Event.isAuthStep, Event.isErrorLog, Event.isHead, Event.isHeadLog]
      · subst h; exact hlg
    · exact hl ev h
  unfold sync
  rcases hx : resolveAuth b s repo with ⟨res, tr, s1⟩
  cases res with
  | error e => exact ⟨[], by simp⟩
  | ok gitAuth =>
    simp only
    split
    · refine ⟨_, by simp only [Run.after, List.append_assoc]; rfl,
        hlog _ _ _ (cloneLog_kinds repo) ?_⟩
      intro ev h
      have := checkout_trace b _ _ _ _ _ _ _ ev h
      exact ⟨this.2.2.2.1, this.2.2.2.2.1, this.2.2.2.2.2⟩
    · split
      · refine ⟨_, by simp only [Run.after, List.append_assoc]; rfl,
          hlog _ _ _ (pullLog_kinds repo) ?_⟩
        intro ev h
        have := pull_trace b _ _ _ ev h
        exact ⟨this.2.2.2.2.1, this.2.2.2.2.2.1, this.2.2.2.2.2.2⟩
      · refine ⟨_, by simp only [Run.after, List.append_assoc]; rfl,
          hlog _ _ _ (fetchLog_kinds repo) ?_⟩
        intro ev h
        have := fetch_trace b _ _ _ _ _ _ ev h
        exact ⟨this.2.2.2.1, this.2.2.2.2.1, this.2.2.2.2.2⟩

/-- Every call `sync` makes with a credential is made with the one resolved
from the descriptor. -/
theorem sync_trace_auth (b : Backend σ ρ ω) (s : σ) (repo : Repo) :
    ∀ ev ∈ (sync b s repo).trace, ∀ a, ev.auth? = some a →
      (resolveAuth b s repo).1 = .ok a := by
  intro ev hev a ha
  have hpre : ∀ ev ∈ (resolveAuth b s repo).2.1, ev.auth? = none := by
    intro ev h
    have hb := resolveAuth_trace b s repo ev h
    cases ev <;> simp_all [Event.isAuthStep, Event.auth?]
  unfold sync at hev
  rcases hx : resolveAuth b s repo with ⟨res, tr, s1⟩
  rw [hx] at hev hpre
  simp only at hpre
  cases res with
  | error e =>
    simp only at hev
    rw [hpre ev hev] at ha
    cases ha
  | ok gitAuth =>
    simp only at hev ⊢
    have hlog : ∀ path msg attrs, ∀ ev ∈ tr ++ [Event.plainOpen path, Event.log .info msg attrs],
        ev.auth? = none := by
      intro path msg attrs ev h
      rw [List.mem_append] at h
      rcases h with h | h
      · exact hpre ev h
      · simp at h; rcases h with h | h <;> subst h <;> rfl
    split at hev
    · simp only [Run.after, List.mem_append] at hev
      rcases hev with h | h
      · rw [hlog _ _ _ ev (List.mem_append.mpr h)] at ha; cases ha
      · rw [checkout_auth b _ _ _ _ _ _ _ ev h a ha]
    · split at hev
      · simp only [Run.after, List.mem_append] at hev
        rcases hev with h | h
        · rw [hlog _ _ _ ev (List.mem_append.mpr h)] at ha; cases ha
        · rw [pull_auth b _ _ _ ev h a ha]
      · simp only [Run.after, List.mem_append] at hev
        rcases hev with h | h
        · rw [hlog _ _ _ ev (List.mem_append.mpr h)] at ha; cases ha
        · rw [fetch_auth b _ _ _ _ _ _ ev h a ha]

end Lemmas

section Lemmas

variable {σ ρ ω : Type}

/-- The first call of `checkout` is the clone, with no checkout of the working
tree and with the depth asked for. -/
theorem checkout_first (b : Backend σ ρ ω) (s : σ) (url branch subPath : String)
    (auth : AuthMethod) (destDir : String) (depth : Int) :
    ∃ rest, (checkout b s url branch subPath auth destDir depth).trace =
      Event.plainClone destDir false
        { Auth := auth, URL := url, Depth := depth, NoCheckout := true, Progress := .stdout }
        :: rest := by
  unfold checkout
  simp only
  split
  · exact ⟨_, rfl⟩
  · split
    · exact ⟨_, rfl⟩
    · exact ⟨_, rfl⟩

/-- The first call of `fetch` is the fetch from the default remote, with the
depth asked for. -/
theorem fetch_first (b : Backend σ ρ ω) (s : σ) (r : ρ) (subPath branch : String)
    (auth : AuthMethod) (depth : Int) :
    ∃ rest, (fetch b s r subPath branch auth depth).trace =
      Event.fetch r
        { RemoteName := DefaultRemoteName, Auth := auth, Depth := depth, Progress := .stdout }
        :: rest := by
  unfold fetch
  simp only
  split
  · exact ⟨_, rfl⟩
  · split
    · exact ⟨_, rfl⟩
    · split
      · exact ⟨_, rfl⟩
      · exact ⟨_, rfl⟩

/-- With a working tree at hand, `pull` issues the pull of the single branch
of the default remote, forced. -/
theorem pull_issued (b : Backend σ ρ ω) (s : σ) (r : ρ) (auth : AuthMethod) (w : ω) (s1 : σ)
    (hw : b.worktree s r = (.ok w, s1)) :
    (pull b s r auth).trace =
      [Event.worktree r,
       Event.pull w { RemoteName := DefaultRemoteName, Auth := auth, SingleBranch := true,
                      Force := true, Progress := .stdout }] := by
  unfold pull
  rw [hw]
  simp only
  split
  · rfl
  · split <;> rfl

end Lemmas

section PathLemmas

/-- Splitting at a separator splits the two sides separately. -/
theorem splitOn_append_sep (a b : List Char) :
    (a ++ '/' :: b).splitOn '/' = a.splitOn '/' ++ b.splitOn '/' := by
  simp only [List.splitOn]
  induction a with
  | nil => simp
  | cons c a ih =>
    rw [List.cons_append, List.splitOnP_cons, List.splitOnP_cons, ih]
    by_cases hc : (c == '/') = true
    · simp [hc]
    · simp only [hc, Bool.false_eq_true, if_false]
      cases hs : List.splitOnP (fun x => x == '/') a with
      | nil => exact absurd hs (List.splitOnP_ne_nil _ _)
      | cons x xs => rfl

/-- Without a `..` among the elements, cleaning only drops the empty elements
and the `.` elements. -/
theorem foldl_cleanStep_of_no_dotdot (rooted : Bool) (els : List (List Char))
    (h : ['.', '.'] ∉ els) (stack : List (List Char)) :
    els.foldl (cleanStep rooted) stack = (els.filter keptElement).reverse ++ stack := by
  induction els generalizing stack with
  | nil => rfl
  | cons el els ih =>
    have hel : el ≠ ['.', '.'] := fun he => h (by rw [he]; exact List.mem_cons_self _ _)
    have hels : ['.', '.'] ∉ els := fun he => h (List.mem_cons_of_mem _ he)
    rw [List.foldl_cons, ih hels]
    by_cases hk : el = [] ∨ el = ['.']
    · have : keptElement el = false := by
        simp only [keptElement, decide_eq_false_iff_not, not_and_or, not_not]
        exact hk
      simp [cleanStep, hk, List.filter_cons, this]
    · have : keptElement el = true := by
        simp only [keptElement, decide_eq_true_eq]
        exact not_or.mp hk
      simp [cleanStep, hk, hel, List.filter_cons, this]

/-- Joining two lists of elements, the second one not empty. -/
theorem intercalate_append_cons (A : List (List Char)) (x : List Char) (B : List (List Char)) :
    List.intercalate ['/'] (A ++ x :: B) =
      (if A = [] then [] else List.intercalate ['/'] A ++ ['/'])
        ++ List.intercalate ['/'] (x :: B) := by
  induction A with
  | nil => simp
  | cons a A ih =>
    cases A with
    | nil =>
      simp only [List.intercalate] at ih ⊢
      simp [List.intersperse]
    | cons a2 A =>
      simp only [List.intercalate] at ih ⊢
      simp only [List.cons_append, List.intersperse_cons₂, List.flatten_cons,
        List.append_assoc] at ih ⊢
      simp only [reduceCtorEq, if_false, List.append_assoc] at ih ⊢
      rw [ih]
      simp

/-- A rooted clean path joined with a remainder that has no `..` element is
that path, followed by a separator and more when the remainder keeps an
element. -/
theorem cleanChars_append (home remainder : List Char) (hroot : home.head? = some '/')
    (hclean : cleanChars home = home) (hdd : ['.', '.'] ∉ remainder.splitOn '/') :
    cleanChars (home ++ '/' :: remainder) = home
    ∨ ∃ more, cleanChars (home ++ '/' :: remainder) =
        (if home.getLast? = some '/' then home else home ++ ['/']) ++ more := by
  have hne : home ≠ [] := by
    intro h; rw [h] at hroot; cases hroot
  have hne2 : home ++ '/' :: remainder ≠ [] := by simp
  have hroot2 : (home ++ '/' :: remainder).head? = some '/' := by
    cases home with
    | nil => exact absurd rfl hne
    | cons c t => simpa using hroot
  -- the two results, written with the kept elements
  have h1 : cleanChars home =
      '/' :: List.intercalate ['/'] ((home.splitOn '/').foldl (cleanStep true) []).reverse := by
    simp [cleanChars, hne, hroot]
  have h2 : cleanChars (home ++ '/' :: remainder) =
      '/' :: List.intercalate ['/']
        (((home.splitOn '/').foldl (cleanStep true) []).reverse
          ++ (remainder.splitOn '/').filter keptElement) := by
    simp only [cleanChars, hne2, hroot2, if_false, decide_True, if_true]
    rw [splitOn_append_sep, List.foldl_append, foldl_cleanStep_of_no_dotdot true _ hdd]
    simp
  rw [hclean] at h1
  generalize ((home.splitOn '/').foldl (cleanStep true) []).reverse = A at h1 h2
  cases hB : (remainder.splitOn '/').filter keptElement with
  | nil =>
    left
    rw [h2, hB, List.append_nil, ← h1]
  | cons x B =>
    right
    rw [h2, hB, intercalate_append_cons]
    by_cases hA : A = []
    · subst hA
      have hh : home = ['/'] := by rw [h1]; rfl
      refine ⟨List.intercalate ['/'] (x :: B), ?_⟩
      rw [hh]
      simp
    · simp only [hA, if_false]
      rw [← List.cons_append, ← List.cons_append, ← h1]
      by_cases hl : home.getLast? = some '/'
      · exact ⟨'/' :: List.intercalate ['/'] (x :: B), by simp [hl]⟩
      · exact ⟨List.intercalate ['/'] (x :: B), by simp [hl]⟩

/-- The statement of `cleanChars_append` for `filepath.Join` of a home
directory and a remainder. -/
theorem filepathJoin_liesUnder (home remainder : String)
    (hroot : stringsHasPrefix home "/" = true) (hclean : filepathClean home = home)
    (hdd : ['.', '.'] ∉ remainder.data.splitOn '/') :
    liesUnder home (filepathJoin [home, remainder]) = true := by
  have hhead : home.data.head? = some '/' := by
    have h1 : "/".data = ['/'] := rfl
    simp only [stringsHasPrefix, h1] at hroot
    cases hd : home.data with
    | nil => rw [hd] at hroot; simp [List.isPrefixOf] at hroot
    | cons c t =>
      rw [hd] at hroot
      simp only [List.isPrefixOf, Bool.and_true, beq_iff_eq] at hroot
      rw [← hroot]
      rfl
  have hne : home ≠ "" := by
    intro h
    rw [h] at hhead
    cases hhead
  have hcl : cleanChars home.data = home.data := by
    have := congrArg String.data hclean
    simpa [filepathClean] using this
  have hj : (filepathJoin [home, remainder]).data = cleanChars (home.data ++ '/' :: remainder.data) := by
    simp [filepathJoin, hne, filepathClean, List.intercalate]
  simp only [liesUnder, Bool.or_eq_true, beq_iff_eq]
  rcases cleanChars_append home.data remainder.data hhead hcl hdd with h | ⟨more, h⟩
  · left
    apply String.ext
    rw [hj, h]
  · right
    rw [hj, h, List.isPrefixOf_iff_prefix]
    exact List.prefix_append _ _

end PathLemmas

section Lemmas

variable {σ ρ ω : Type}

/-- The events of the job, case by case on the result of `sync` and of the
read of HEAD. -/
theorem job_events (b : Backend σ ρ ω) (s : σ) (repo : Repo) :
    ((sync b s repo).err = none →
      (∀ ref tr s1, head b (sync b s repo).state repo.DestDir = (.ok ref, tr, s1) →
        job b s repo =
          ((sync b s repo).trace ++ tr ++ [headLog repo ref, completedLog repo], s1))
      ∧ (∀ e tr s1, head b (sync b s repo).state repo.DestDir = (.error e, tr, s1) →
        job b s repo = ((sync b s repo).trace ++ tr ++ [completedLog repo], s1))
      ∧ completedLog repo ∈ (job b s repo).1
      ∧ (∀ ev ∈ (job b s repo).1, ev.isErrorLog = false)
      ∧ ((∃ ev ∈ (job b s repo).1, ev.isHeadLog = true) ↔
          ∃ ref, (head b (sync b s repo).state repo.DestDir).1 = .ok ref))
    ∧ (∀ e, (sync b s repo).err = some e →
      job b s repo = ((sync b s repo).trace ++ [failedLog repo e], (sync b s repo).state)
      ∧ (job b s repo).1.filter Event.isErrorLog = [failedLog repo e]
      ∧ ∀ ev ∈ (job b s repo).1, ev.isHead = false) := by
  -- what the events of `sync` and of `head` are made of
  have hsync : ∀ ev ∈ (sync b s repo).trace,
      ev.isErrorLog = false ∧ ev.isHead = false ∧ ev.isHeadLog = false := by
    obtain ⟨rest, hrest, hk⟩ := sync_trace_split b s repo
    intro ev hev
    rw [hrest, List.mem_append] at hev
    rcases hev with h | h
    · have := resolveAuth_trace b s repo ev h
      cases ev <;> simp_all [Event.isAuthStep, Event.isErrorLog, Event.isHead, Event.isHeadLog]
    · exact (hk ev h).2
  have hhead : ∀ (s0 : σ) (path : String), ∀ ev ∈ (head b s0 path).2.1,
      ev.isErrorLog = false ∧ ev.isHeadLog = false := by
    intro s0 path ev hev
    unfold head at hev
    split at hev
    · simp at hev; subst hev; simp [Event.isErrorLog, Event.isHeadLog]
    · simp at hev; rcases hev with h | h <;> subst h <;> simp [Event.isErrorLog, Event.isHeadLog]
  have hheadlog : ∀ ref : Reference, (headLog repo ref : Event ρ ω).isHeadLog = true := by
    intro ref
    simp only [headLog, Event.isHeadLog, stringsHasPrefix, String.data_append]
    simp
  have hcompleted : (completedLog repo : Event ρ ω).isHeadLog = false := by
    have h1 : "Sync git repo completed.".data = 'S' :: "ync git repo completed.".data := rfl
    have h2 : "git show-ref --head HEAD: ".data = 'g' :: "it show-ref --head HEAD: ".data := rfl
    simp only [completedLog, Event.isHeadLog, stringsHasPrefix, h1, h2, List.isPrefixOf]
    simp
  constructor
  · intro hok
    rcases hh : head b (sync b s repo).state repo.DestDir with ⟨res, tr, s1⟩
    have htr : ∀ ev ∈ tr, ev.isErrorLog = false ∧ ev.isHeadLog = false := by
      have := hhead (sync b s repo).state repo.DestDir
      rw [hh] at this
      exact this
    cases res with
    | ok ref =>
      have hj : job b s repo =
          ((sync b s repo).trace ++ tr ++ [headLog repo ref, completedLog repo], s1) := by
        unfold job; simp only; rw [hok]; simp only; rw [hh]
      refine ⟨?_, ?_, ?_, ?_, ?_⟩
      · intro ref1 tr1 s2 h
        simp only [Prod.mk.injEq, Except.ok.injEq] at h
        obtain ⟨h1, h2, h3⟩ := h
        subst h1 h2 h3
        exact hj
      · intro e tr1 s2 h
        simp at h
      · rw [hj]; simp
      · rw [hj]
        intro ev hev
        simp only [List.mem_append, List.mem_cons, List.mem_singleton, List.not_mem_nil,
          or_false] at hev
        rcases hev with (h | h) | h | h
        · exact (hsync ev h).1
        · exact (htr ev h).1
        · subst h; rfl
        · subst h; rfl
      · constructor
        · intro _
          exact ⟨ref, rfl⟩
        · intro _
          rw [hj]
          exact ⟨headLog repo ref, by simp, hheadlog ref⟩
    | error e =>
      have hj : job b s repo = ((sync b s repo).trace ++ tr ++ [completedLog repo], s1) := by
        unfold job; simp only; rw [hok]; simp only; rw [hh]
      refine ⟨?_, ?_, ?_, ?_, ?_⟩
      · intro ref1 tr1 s2 h
        simp at h
      · intro e1 tr1 s2 h
        simp only [Prod.mk.injEq, Except.error.injEq] at h
        obtain ⟨h1, h2, h3⟩ := h
        subst h1 h2 h3
        exact hj
      · rw [hj]; simp
      · rw [hj]
        intro ev hev
        simp only [List.mem_append, List.mem_singleton] at hev
        rcases hev with (h | h) | h
        · exact (hsync ev h).1
        · exact (htr ev h).1
        · subst h; rfl
      · constructor
        · rintro ⟨ev, hev, hl⟩
          rw [hj] at hev
          simp only [List.mem_append, List.mem_singleton] at hev
          rcases hev with (h | h) | h
          · rw [(hsync ev h).2.2] at hl; cases hl
          · rw [(htr ev h).2] at hl; cases hl
          · subst h; rw [hcompleted] at hl; cases hl
        · rintro ⟨ref, h⟩
          cases h
  · intro e he
    have hj : job b s repo =
        ((sync b s repo).trace ++ [failedLog repo e], (sync b s repo).state) := by
      unfold job; simp only; rw [he]
    refine ⟨hj, ?_, ?_⟩
    · rw [hj]
      simp only [List.filter_append]
      have : (sync b s repo).trace.filter Event.isErrorLog = [] := by
        rw [List.filter_eq_nil_iff]
        intro ev hev
        rw [(hsync ev hev).1]
        simp
      rw [this]
      rfl
    · rw [hj]
      intro ev hev
      simp only [List.mem_append, List.mem_singleton] at hev
      rcases hev with h | h
      · exact (hsync ev h).2.1
      · subst h; rfl

end Lemmas

section Lemmas

variable {σ ρ ω : Type}

/-- Every restriction carried by a call of `fetch` is the singleton of the
sub-path. -/
theorem fetch_sparse (b : Backend σ ρ ω) (s : σ) (r : ρ) (subPath branch : String)
    (auth : AuthMethod) (depth : Int) :
    ∀ ev ∈ (fetch b s r subPath branch auth depth).trace,
      ∀ dirs, ev.sparseDirs? = some dirs → dirs = [subPath] := by
  intro ev hev dirs
  unfold fetch at hev
  simp only at hev
  split at hev
  · simp at hev; subst hev; simp [Event.sparseDirs?]
  · split at hev
    · simp at hev; rcases hev with h | h <;> subst h <;> simp [Event.sparseDirs?]
    · split at hev
      · simp at hev; rcases hev with h | h | h <;> subst h <;> simp [Event.sparseDirs?]
      · simp at hev; rcases hev with h | h | h | h <;> subst h <;> simp [Event.sparseDirs?]
        exact fun h => h.symm

/-- Every restriction carried by a call of `checkout` is the singleton of the
sub-path when there is one, and the empty list otherwise. -/
theorem checkout_sparse (b : Backend σ ρ ω) (s : σ) (url branch subPath : String)
    (auth : AuthMethod) (destDir : String) (depth : Int) :
    ∀ ev ∈ (checkout b s url branch subPath auth destDir depth).trace,
      ∀ dirs, ev.sparseDirs? = some dirs → dirs = if subPath = "" then [] else [subPath] := by
  intro ev hev dirs
  unfold checkout at hev
  simp only at hev
  split at hev
  · simp at hev; subst hev; simp [Event.sparseDirs?]
  · split at hev
    · simp at hev; rcases hev with h | h <;> subst h <;> simp [Event.sparseDirs?]
    · simp at hev; rcases hev with h | h | h <;> subst h <;> simp [Event.sparseDirs?]
      intro h
      rw [← h]

/-- With the fetch tolerated, the working tree at hand and the remote
reference found, `fetch` issues the hard reset to the hash of the reference
with the singleton of the sub-path. -/
theorem fetch_reset_issued (b : Backend σ ρ ω) (s : σ) (r : ρ) (subPath branch : String)
    (auth : AuthMethod) (depth : Int) (w : ω) (s2 : σ) (ref : Reference) (s3 : σ)
    (hf : (b.fetch s r { RemoteName := "origin", Auth := auth, Depth := depth,
                         Progress := .stdout }).1 = none
      ∨ ∃ e, (b.fetch s r { RemoteName := "origin", Auth := auth, Depth := depth,
                            Progress := .stdout }).1 = some e
          ∧ errorsIs e NoErrAlreadyUpToDate = true)
    (hw : b.worktree (b.fetch s r { RemoteName := "origin", Auth := auth, Depth := depth,
                                    Progress := .stdout }).2 r = (.ok w, s2))
    (hr : b.reference s2 r (NewRemoteReferenceName DefaultRemoteName branch) true
      = (.ok ref, s3)) :
    Event.resetSparsely w { Commit := ref.Hash, Mode := .hardReset } [subPath]
      ∈ (fetch b s r subPath branch auth depth).trace := by
  unfold fetch
  simp only [DefaultRemoteName] at hr ⊢
  rcases hf with hf | ⟨e, hf, he⟩
  · rw [hf]; simp only; rw [hw]; simp only; rw [hr]
    simp
  · rw [hf]; simp only [he, if_true]; rw [hw]; simp only; rw [hr]
    simp

end Lemmas

/-! ## The claims -/

section Claims

variable {σ ρ ω : Type}

/-- C1: strategy selection.  When the credential resolves, `sync` probes the
destination and then runs exactly one of the three procedures, chosen by the
result of the probe and the depth alone: `checkout` when the destination does
not open (the clone is issued, and no pull, fetch or reset), `pull` when it
opens and the depth is not positive (the pull is issued once the working tree
is at hand, and no clone, checkout, fetch or reset), `fetch` (fetch and hard
reset) when it opens and the depth is positive (the fetch is issued, and no
clone, checkout or pull). -/
theorem sync_strategy_selection (b : Backend σ ρ ω) (s : σ) (repo : Repo)
    (gitAuth : AuthMethod) (tr : List (Event ρ ω)) (s1 : σ)
    (hauth : resolveAuth b s repo = (.ok gitAuth, tr, s1)) :
    (∀ e s2, b.plainOpen s1 repo.DestDir = (.error e, s2) →
      sync b s repo =
        (checkout b s2 repo.URL repo.Branch repo.SubPath gitAuth repo.DestDir repo.Depth).after
          (tr ++ [.plainOpen repo.DestDir, cloneLog repo])
      ∧ (∃ ev ∈ (sync b s repo).trace, ev.isClone = true)
      ∧ ∀ ev ∈ (sync b s repo).trace,
          ev.isPull = false ∧ ev.isFetch = false ∧ ev.isReset = false)
    ∧ (∀ r s2, b.plainOpen s1 repo.DestDir = (.ok r, s2) → repo.Depth ≤ 0 →
      sync b s repo = (pull b s2 r gitAuth).after (tr ++ [.plainOpen repo.DestDir, pullLog repo])
      ∧ (∀ w s3, b.worktree s2 r = (.ok w, s3) → ∃ ev ∈ (sync b s repo).trace, ev.isPull = true)
      ∧ ∀ ev ∈ (sync b s repo).trace,
          ev.isClone = false ∧ ev.isCheckout = false ∧ ev.isFetch = false ∧ ev.isReset = false)
    ∧ (∀ r s2, b.plainOpen s1 repo.DestDir = (.ok r, s2) → 0 < repo.Depth →
      sync b s repo =
        (fetch b s2 r repo.SubPath repo.Branch gitAuth repo.Depth).after
          (tr ++ [.plainOpen repo.DestDir, fetchLog repo])
      ∧ (∃ ev ∈ (sync b s repo).trace, ev.isFetch = true)
      ∧ ∀ ev ∈ (sync b s repo).trace,
          ev.isClone = false ∧ ev.isCheckout = false ∧ ev.isPull = false) := by
  have htr : (resolveAuth b s repo).2.1 = tr := by rw [hauth]
  refine ⟨?_, ?_, ?_⟩
  · intro e s2 hopen
    have hs : sync b s repo =
        (checkout b s2 repo.URL repo.Branch repo.SubPath gitAuth repo.DestDir repo.Depth).after
          (tr ++ [.plainOpen repo.DestDir, cloneLog repo]) := by
      unfold sync; rw [hauth]; simp only; rw [hopen]
    refine ⟨hs, ?_, ?_⟩
    · rw [hs]
      obtain ⟨rest, hrest⟩ := checkout_first b s2 repo.URL repo.Branch repo.SubPath gitAuth
        repo.DestDir repo.Depth
      simp only [Run.after]
      rw [hrest]
      exact ⟨_, List.mem_append_right _ (List.mem_cons_self _ _), rfl⟩
    · rw [hs]
      intro ev hev
      simp only [Run.after, List.mem_append] at hev
      rcases hev with h | h
      · have := prelude_kinds b s repo repo.DestDir _ _ ev
          (by rw [htr]; exact List.mem_append.mpr h)
        exact ⟨this.2.2.1, this.2.2.2.1, this.2.2.2.2.1⟩
      · have := checkout_trace b s2 _ _ _ _ _ _ ev h
        exact ⟨this.1, this.2.1, this.2.2.1⟩
  · intro r s2 hopen hd
    have hs : sync b s repo =
        (pull b s2 r gitAuth).after (tr ++ [.plainOpen repo.DestDir, pullLog repo]) := by
      unfold sync; rw [hauth]; simp only; rw [hopen]; simp only [hd, if_true]
    refine ⟨hs, ?_, ?_⟩
    · intro w s3 hw
      rw [hs]
      simp only [Run.after]
      rw [pull_issued b s2 r gitAuth w s3 hw]
      exact ⟨_, List.mem_append_right _ (List.mem_cons_of_mem _ (List.mem_cons_self _ _)), rfl⟩
    · rw [hs]
      intro ev hev
      simp only [Run.after, List.mem_append] at hev
      rcases hev with h | h
      · have := prelude_kinds b s repo repo.DestDir _ _ ev
          (by rw [htr]; exact List.mem_append.mpr h)
        exact ⟨this.1, this.2.1, this.2.2.2.1, this.2.2.2.2.1⟩
      · have := pull_trace b s2 r gitAuth ev h
        exact ⟨this.1, this.2.1, this.2.2.1, this.2.2.2.1⟩
  · intro r s2 hopen hd
    have hs : sync b s repo =
        (fetch b s2 r repo.SubPath repo.Branch gitAuth repo.Depth).after
          (tr ++ [.plainOpen repo.DestDir, fetchLog repo]) := by
      unfold sync; rw [hauth]; simp only; rw [hopen]; simp only [not_le.mpr hd, if_false]
    refine ⟨hs, ?_, ?_⟩
    · rw [hs]
      obtain ⟨rest, hrest⟩ := fetch_first b s2 r repo.SubPath repo.Branch gitAuth repo.Depth
      simp only [Run.after]
      rw [hrest]
      exact ⟨_, List.mem_append_right _ (List.mem_cons_self _ _), rfl⟩
    · rw [hs]
      intro ev hev
      simp only [Run.after, List.mem_append] at hev
      rcases hev with h | h
      · have := prelude_kinds b s repo repo.DestDir _ _ ev
          (by rw [htr]; exact List.mem_append.mpr h)
        exact ⟨this.1, this.2.1, this.2.2.1⟩
      · have := fetch_trace b s2 r _ _ _ _ ev h
        exact ⟨this.1, this.2.1, this.2.2.1⟩

/-- C1, evaluated: the descriptor `demoRepo` on an absent destination (clone),
on a present one with depth 0 (pull) and on a present one with depth 2
(fetch). -/
theorem sync_strategy_selection_witness :
    ((∃ ev ∈ (sync demo [] demoRepo).trace, ev.isClone = true)
      ∧ ∀ ev ∈ (sync demo [] demoRepo).trace,
          ev.isPull = false ∧ ev.isFetch = false ∧ ev.isReset = false)
    ∧ ((∃ ev ∈ (sync demo ["out"] demoRepo).trace, ev.isPull = true)
      ∧ ∀ ev ∈ (sync demo ["out"] demoRepo).trace,
          ev.isClone = false ∧ ev.isCheckout = false ∧ ev.isFetch = false ∧ ev.isReset = false)
    ∧ ((∃ ev ∈ (sync demo ["out"] { demoRepo with Depth := 2 }).trace, ev.isFetch = true)
      ∧ ∀ ev ∈ (sync demo ["out"] { demoRepo with Depth := 2 }).trace,
          ev.isClone = false ∧ ev.isCheckout = false ∧ ev.isPull = false) :=
  ⟨((sync_strategy_selection demo [] demoRepo (.basic ⟨"u", "t"⟩) [] [] rfl).1
      (.sentinel "repository does not exist") [] rfl).2,
   let h := (sync_strategy_selection demo ["out"] demoRepo (.basic ⟨"u", "t"⟩) [] ["out"]
      rfl).2.1 "out" ["out"] rfl (by decide)
   ⟨h.2.1 "out" ["out"] rfl, h.2.2⟩,
   ((sync_strategy_selection demo ["out"] { demoRepo with Depth := 2 } (.basic ⟨"u", "t"⟩) []
      ["out"] rfl).2.2 "out" ["out"] rfl (by decide)).2⟩

end Claims

section Claims

variable {σ ρ ω : Type}

/-- C2: the credential is chosen by the prefix of the URL alone.  When the URL
starts with `http`, the credential is the token credential made of `Auth.User`
and `Auth.AccessToken`, it is obtained without any call (no look-up of the
home directory, no load of a key file) and never fails, and every call of
`sync` that carries a credential carries this one.  Otherwise the credential
is what the key loader returns for `Auth.User`, the expanded key file and the
passphrase, that load is the call right after the expansion of the path, and
no call of `sync` carries a token credential. -/
theorem sync_auth_dispatch (b : Backend σ ρ ω) (s : σ) (repo : Repo) :
    (stringsHasPrefix repo.URL "http" = true →
      resolveAuth b s repo =
        (.ok (.basic { Username := repo.Auth.User, Password := repo.Auth.AccessToken }), [], s)
      ∧ (∀ ev ∈ (sync b s repo).trace, ev.isAuthStep = false)
      ∧ ∀ ev ∈ (sync b s repo).trace, ∀ a, ev.auth? = some a →
          a = .basic { Username := repo.Auth.User, Password := repo.Auth.AccessToken })
    ∧ (stringsHasPrefix repo.URL "http" = false →
      (resolveAuth b s repo).1 =
        (b.newPublicKeysFromFile (expandKeyFile b s repo.Auth.PrivateKeyFile).2.2 repo.Auth.User
          (expandKeyFile b s repo.Auth.PrivateKeyFile).1 repo.Auth.PrivateKeyPassphrase).1.map
          AuthMethod.publicKeys
      ∧ (∃ rest, (sync b s repo).trace =
          (expandKeyFile b s repo.Auth.PrivateKeyFile).2.1
            ++ Event.newPublicKeysFromFile repo.Auth.User
                (expandKeyFile b s repo.Auth.PrivateKeyFile).1 repo.Auth.PrivateKeyPassphrase
              :: rest)
      ∧ (∀ t, (resolveAuth b s repo).1 ≠ .ok (.basic t))
      ∧ ∀ ev ∈ (sync b s repo).trace, ∀ a, ev.auth? = some a → ∃ k, a = .publicKeys k) := by
  constructor
  · intro hurl
    have hres : resolveAuth b s repo =
        (.ok (.basic { Username := repo.Auth.User, Password := repo.Auth.AccessToken }), [], s) := by
      unfold resolveAuth; rw [if_pos hurl]
    refine ⟨hres, ?_, ?_⟩
    · obtain ⟨rest, hrest, hk⟩ := sync_trace_split b s repo
      rw [hres] at hrest
      intro ev hev
      rw [hrest] at hev
      exact (hk ev (by simpa using hev)).1
    · intro ev hev a ha
      have := sync_trace_auth b s repo ev hev a ha
      rw [hres] at this
      simp only [Except.ok.injEq] at this
      exact this.symm
  · intro hurl
    have hres : (resolveAuth b s repo).1 =
        (b.newPublicKeysFromFile (expandKeyFile b s repo.Auth.PrivateKeyFile).2.2 repo.Auth.User
          (expandKeyFile b s repo.Auth.PrivateKeyFile).1 repo.Auth.PrivateKeyPassphrase).1.map
          AuthMethod.publicKeys
        ∧ (resolveAuth b s repo).2.1 =
          (expandKeyFile b s repo.Auth.PrivateKeyFile).2.1
            ++ [Event.newPublicKeysFromFile repo.Auth.User
                (expandKeyFile b s repo.Auth.PrivateKeyFile).1 repo.Auth.PrivateKeyPassphrase] := by
      unfold resolveAuth
      rw [if_neg (by simp [hurl])]
      rcases hx : expandKeyFile b s repo.Auth.PrivateKeyFile with ⟨keyFile, tr, s1⟩
      simp only
      rcases hy : b.newPublicKeysFromFile s1 repo.Auth.User keyFile
        repo.Auth.PrivateKeyPassphrase with ⟨res, s2⟩
      cases res <;> exact ⟨rfl, rfl⟩
    have hkey : ∀ a, (resolveAuth b s repo).1 = .ok a → ∃ k, a = .publicKeys k := by
      intro a ha
      rw [hres.1] at ha
      cases hz : (b.newPublicKeysFromFile (expandKeyFile b s repo.Auth.PrivateKeyFile).2.2
        repo.Auth.User (expandKeyFile b s repo.Auth.PrivateKeyFile).1
        repo.Auth.PrivateKeyPassphrase).1 with
      | error e => rw [hz] at ha; cases ha
      | ok k =>
        rw [hz] at ha
        simp only [Except.map, Except.ok.injEq] at ha
        exact ⟨k, ha.symm⟩
    refine ⟨hres.1, ?_, ?_, ?_⟩
    · obtain ⟨rest, hrest, _⟩ := sync_trace_split b s repo
      rw [hres.2] at hrest
      exact ⟨rest, by rw [hrest]; simp⟩
    · intro t ht
      obtain ⟨k, hk⟩ := hkey _ ht
      cases hk
    · intro ev hev a ha
      exact hkey a (sync_trace_auth b s repo ev hev a ha)

/-- C2, evaluated on an HTTP descriptor and on an SSH descriptor. -/
theorem sync_auth_dispatch_witness :
    (resolveAuth demo [] demoRepo = (.ok (.basic { Username := "u", Password := "t" }), [], [])
      ∧ (∀ ev ∈ (sync demo [] demoRepo).trace, ev.isAuthStep = false)
      ∧ ∀ ev ∈ (sync demo [] demoRepo).trace, ∀ a, ev.auth? = some a →
          a = .basic { Username := "u", Password := "t" })
    ∧ ((resolveAuth demo [] demoSshRepo).1 = .ok (.publicKeys { User := "git", Signer := "key" })
      ∧ (∃ rest, (sync demo [] demoSshRepo).trace =
          [Event.userHomeDir] ++ Event.newPublicKeysFromFile "git" "/home/u/.ssh/id_rsa" "" :: rest)
      ∧ (∀ t, (resolveAuth demo [] demoSshRepo).1 ≠ .ok (.basic t))
      ∧ ∀ ev ∈ (sync demo [] demoSshRepo).trace, ∀ a, ev.auth? = some a → ∃ k, a = .publicKeys k) :=
  ⟨(sync_auth_dispatch demo [] demoRepo).1 (by decide),
   (sync_auth_dispatch demo [] demoSshRepo).2 (by decide)⟩

/-- C6: a failure of the key load is the failure of `sync`, and nothing else
happens.  When the URL does not start with `http` and the key loader fails on
the expanded key file, `sync` returns that very error, its events are the
expansion of the path and the load of the key and nothing more (so no call to
the repository backend: no probe of the destination, no clone, fetch, pull or
reset), and the world is the one the key loader left. -/
theorem sync_auth_failure_atomic (b : Backend σ ρ ω) (s : σ) (repo : Repo) (e : GoError)
    (hurl : stringsHasPrefix repo.URL "http" = false)
    (hkey : (b.newPublicKeysFromFile (expandKeyFile b s repo.Auth.PrivateKeyFile).2.2
      repo.Auth.User (expandKeyFile b s repo.Auth.PrivateKeyFile).1
      repo.Auth.PrivateKeyPassphrase).1 = .error e) :
    (sync b s repo).err = some e
    ∧ (sync b s repo).trace =
        (expandKeyFile b s repo.Auth.PrivateKeyFile).2.1
          ++ [Event.newPublicKeysFromFile repo.Auth.User
              (expandKeyFile b s repo.Auth.PrivateKeyFile).1 repo.Auth.PrivateKeyPassphrase]
    ∧ (∀ ev ∈ (sync b s repo).trace, ev.isBackendOp = false)
    ∧ (sync b s repo).state =
        (b.newPublicKeysFromFile (expandKeyFile b s repo.Auth.PrivateKeyFile).2.2
          repo.Auth.User (expandKeyFile b s repo.Auth.PrivateKeyFile).1
          repo.Auth.PrivateKeyPassphrase).2 := by
  have hres : resolveAuth b s repo =
      (.error e,
       (expandKeyFile b s repo.Auth.PrivateKeyFile).2.1
          ++ [Event.newPublicKeysFromFile repo.Auth.User
              (expandKeyFile b s repo.Auth.PrivateKeyFile).1 repo.Auth.PrivateKeyPassphrase],
       (b.newPublicKeysFromFile (expandKeyFile b s repo.Auth.PrivateKeyFile).2.2
          repo.Auth.User (expandKeyFile b s repo.Auth.PrivateKeyFile).1
          repo.Auth.PrivateKeyPassphrase).2) := by
    unfold resolveAuth
    rw [if_neg (by simp [hurl])]
    revert hkey
    rcases expandKeyFile b s repo.Auth.PrivateKeyFile with ⟨keyFile, tr, s1⟩
    simp only
    rcases b.newPublicKeysFromFile s1 repo.Auth.User keyFile
      repo.Auth.PrivateKeyPassphrase with ⟨res, s2⟩
    intro hkey
    simp only at hkey
    subst hkey
    rfl
  have hs : sync b s repo = ⟨some e,
       (expandKeyFile b s repo.Auth.PrivateKeyFile).2.1
          ++ [Event.newPublicKeysFromFile repo.Auth.User
              (expandKeyFile b s repo.Auth.PrivateKeyFile).1 repo.Auth.PrivateKeyPassphrase],
       (b.newPublicKeysFromFile (expandKeyFile b s repo.Auth.PrivateKeyFile).2.2
          repo.Auth.User (expandKeyFile b s repo.Auth.PrivateKeyFile).1
          repo.Auth.PrivateKeyPassphrase).2⟩ := by
    unfold sync
    rw [hres]
  refine ⟨by rw [hs], by rw [hs], ?_, by rw [hs]⟩
  intro ev hev
  have hk := resolveAuth_trace b s repo ev (by rw [hres]; rw [hs] at hev; exact hev)
  cases ev <;> simp_all [Event.isAuthStep, Event.isBackendOp]

/-- C6, evaluated on an SSH descriptor whose key file does not exist. -/
theorem sync_auth_failure_atomic_witness :
    (sync demo ["out"] demoBadKeyRepo).err = some (.sentinel "open: no such file or directory")
    ∧ (sync demo ["out"] demoBadKeyRepo).trace =
        [Event.userHomeDir] ++ [Event.newPublicKeysFromFile "git" "/home/u/.ssh/missing" ""]
    ∧ (∀ ev ∈ (sync demo ["out"] demoBadKeyRepo).trace, ev.isBackendOp = false)
    ∧ (sync demo ["out"] demoBadKeyRepo).state = ["out"] :=
  sync_auth_failure_atomic demo ["out"] demoBadKeyRepo
    (.sentinel "open: no such file or directory") (by decide) rfl

end Claims

section Claims

variable {σ ρ ω : Type}

/-- C7: `checkout` on a destination.  Its first call is the clone into the
destination, not bare, with no checkout of the working tree and with the depth
of the descriptor.  When the clone fails, its error is the result and nothing
else is called.  When the clone and the access to the working tree succeed,
the branch `refs/heads/<branch>` is checked out with force, with the sparse
directories `[subPath]` for a non-empty `subPath` and none otherwise, and the
result of `checkout` is the result of that call.  `checkout` returns `nil`
only when the clone, the access to the working tree and the checkout of the
branch all succeeded. -/
theorem checkout_steps (b : Backend σ ρ ω) (s : σ) (url branch subPath : String)
    (auth : AuthMethod) (destDir : String) (depth : Int) :
    (∃ rest, (checkout b s url branch subPath auth destDir depth).trace =
      Event.plainClone destDir false
        { Auth := auth, URL := url, Depth := depth, NoCheckout := true, Progress := .stdout }
        :: rest)
    ∧ (∀ e s1,
      b.plainClone s destDir false
        { Auth := auth, URL := url, Depth := depth, NoCheckout := true, Progress := .stdout }
        = (.error e, s1) →
      (checkout b s url branch subPath auth destDir depth).err = some e
      ∧ (checkout b s url branch subPath auth destDir depth).trace =
        [Event.plainClone destDir false
          { Auth := auth, URL := url, Depth := depth, NoCheckout := true, Progress := .stdout }])
    ∧ (∀ r s1 w s2,
      b.plainClone s destDir false
        { Auth := auth, URL := url, Depth := depth, NoCheckout := true, Progress := .stdout }
        = (.ok r, s1) →
      b.worktree s1 r = (.ok w, s2) →
      (checkout b s url branch subPath auth destDir depth).err =
        (b.checkout s2 w
          { Branch := "refs/heads/" ++ branch, Force := true,
            SparseCheckoutDirectories := if subPath = "" then [] else [subPath] }).1
      ∧ (checkout b s url branch subPath auth destDir depth).trace =
        [Event.plainClone destDir false
          { Auth := auth, URL := url, Depth := depth, NoCheckout := true, Progress := .stdout },
         Event.worktree r,
         Event.checkout w
          { Branch := "refs/heads/" ++ branch, Force := true,
            SparseCheckoutDirectories := if subPath = "" then [] else [subPath] }])
    ∧ ((checkout b s url branch subPath auth destDir depth).err = none →
      ∃ r s1 w s2,
        b.plainClone s destDir false
          { Auth := auth, URL := url, Depth := depth, NoCheckout := true, Progress := .stdout }
          = (.ok r, s1)
        ∧ b.worktree s1 r = (.ok w, s2)
        ∧ (b.checkout s2 w
            { Branch := "refs/heads/" ++ branch, Force := true,
              SparseCheckoutDirectories := if subPath = "" then [] else [subPath] }).1 = none) := by
  have hsp : (if subPath ≠ "" then [subPath] else []) = if subPath = "" then [] else [subPath] := by
    by_cases h : subPath = "" <;> simp [h]
  refine ⟨checkout_first b s url branch subPath auth destDir depth, ?_, ?_, ?_⟩
  · intro e s1 hc
    unfold checkout
    simp only
    rw [hc]
    exact ⟨rfl, rfl⟩
  · intro r s1 w s2 hc hw
    unfold checkout
    simp only
    rw [hc]
    simp only
    rw [hw]
    simp only [NewBranchReferenceName, hsp]
    constructor <;> first | rfl | trivial
  · unfold checkout
    simp only
    rcases hc : b.plainClone s destDir false
      { Auth := auth, URL := url, Depth := depth, NoCheckout := true, Progress := .stdout }
      with ⟨rc, s1⟩
    cases rc with
    | error e => simp
    | ok r =>
      simp only
      rcases hw : b.worktree s1 r with ⟨rwt, s2⟩
      cases rwt with
      | error e => simp
      | ok w =>
        simp only [NewBranchReferenceName, hsp]
        intro h
        exact ⟨r, s1, w, s2, rfl, hw, h⟩

/-- C7, evaluated: a clone that fails (the destination already holds a
repository), a checkout of the existing branch `main` restricted to `foo`, a
checkout of the unknown branch `dev` with no sub-path, and what a `nil` result
tells. -/
theorem checkout_steps_witness :
    ((checkout demo ["out"] "https://example.org/r.git" "main" "foo" (.basic ⟨"u", "t"⟩) "out"
        0).err = some (.sentinel "repository already exists")
      ∧ (checkout demo ["out"] "https://example.org/r.git" "main" "foo" (.basic ⟨"u", "t"⟩) "out"
        0).trace =
        [Event.plainClone "out" false
          { Auth := .basic ⟨"u", "t"⟩, URL := "https://example.org/r.git", Depth := 0,
            NoCheckout := true, Progress := .stdout }])
    ∧ ((checkout demo [] "https://example.org/r.git" "main" "foo" (.basic ⟨"u", "t"⟩) "out"
        0).err =
        (demo.checkout ["out"] "out"
          { Branch := "refs/heads/" ++ "main", Force := true,
            SparseCheckoutDirectories := if "foo" = "" then [] else ["foo"] }).1
      ∧ (checkout demo [] "https://example.org/r.git" "main" "foo" (.basic ⟨"u", "t"⟩) "out"
        0).trace =
        [Event.plainClone "out" false
          { Auth := .basic ⟨"u", "t"⟩, URL := "https://example.org/r.git", Depth := 0,
            NoCheckout := true, Progress := .stdout },
         Event.worktree "out",
         Event.checkout "out"
          { Branch := "refs/heads/" ++ "main", Force := true,
            SparseCheckoutDirectories := if "foo" = "" then [] else ["foo"] }])
    ∧ ((checkout demo [] "https://example.org/r.git" "dev" "" (.basic ⟨"u", "t"⟩) "out"
        3).err = some (.sentinel "reference not found")
      ∧ (checkout demo [] "https://example.org/r.git" "dev" "" (.basic ⟨"u", "t"⟩) "out"
        3).trace =
        [Event.plainClone "out" false
          { Auth := .basic ⟨"u", "t"⟩, URL := "https://example.org/r.git", Depth := 3,
            NoCheckout := true, Progress := .stdout },
         Event.worktree "out",
         Event.checkout "out"
          { Branch := "refs/heads/dev", Force := true, SparseCheckoutDirectories := [] }])
    ∧ (∃ r s1 w s2,
        demo.plainClone [] "out" false
          { Auth := .basic ⟨"u", "t"⟩, URL := "https://example.org/r.git", Depth := 0,
            NoCheckout := true, Progress := .stdout } = (.ok r, s1)
        ∧ demo.worktree s1 r = (.ok w, s2)
        ∧ (demo.checkout s2 w
            { Branch := "refs/heads/" ++ "main", Force := true,
              SparseCheckoutDirectories := if "foo" = "" then [] else ["foo"] }).1 = none) :=
  ⟨(checkout_steps demo ["out"] "https://example.org/r.git" "main" "foo" (.basic ⟨"u", "t"⟩)
      "out" 0).2.1 (.sentinel "repository already exists") ["out"] rfl,
   (checkout_steps demo [] "https://example.org/r.git" "main" "foo" (.basic ⟨"u", "t"⟩)
      "out" 0).2.2.1 "out" ["out"] "out" ["out"] rfl rfl,
   let h := (checkout_steps demo [] "https://example.org/r.git" "dev" "" (.basic ⟨"u", "t"⟩)
      "out" 3).2.2.1 "out" ["out"] "out" ["out"] rfl rfl
   ⟨h.1.trans (by decide), h.2.trans (by decide)⟩,
   (checkout_steps demo [] "https://example.org/r.git" "main" "foo" (.basic ⟨"u", "t"⟩)
      "out" 0).2.2.2 (by decide)⟩

end Claims

section Claims

variable {σ ρ ω : Type}

/-- C5, amended: "nothing to update" is success.  `pull` returns `nil` exactly
when the working tree is at hand and the pull of the backend returns `nil` or
an error matching `NoErrAlreadyUpToDate`, and returns any other error of the
backend unchanged.  In `fetch`, a result of the backend fetch that is `nil`
or matches `NoErrAlreadyUpToDate` is not returned and the function goes on to
the working tree; from there each step runs when the one before succeeded: a
failure of the working tree or of the look-up of the remote reference is the
result and no reset is issued, and with both at hand the hard reset is issued
and its result is the result.  Any other error of the fetch is returned and
nothing is called after the fetch.  Hence `sync` on a present destination
returns `nil` when the working tree is at hand and the pull reports nothing
new (depth not positive), and when the fetch reports nothing new, the working
tree and the remote reference are at hand and the reset succeeds (depth
positive). -/
theorem up_to_date_is_success (b : Backend σ ρ ω) (s : σ) (r : ρ) (auth : AuthMethod)
    (subPath branch : String) (depth : Int) (repo : Repo) :
    ((pull b s r auth).err = none ↔
      ∃ w s1, b.worktree s r = (.ok w, s1)
        ∧ ((b.pull s1 w { RemoteName := "origin", Auth := auth, SingleBranch := true,
                          Force := true, Progress := .stdout }).1 = none
          ∨ ∃ e, (b.pull s1 w { RemoteName := "origin", Auth := auth, SingleBranch := true,
                                Force := true, Progress := .stdout }).1 = some e
              ∧ errorsIs e NoErrAlreadyUpToDate = true))
    ∧ (∀ w s1 e, b.worktree s r = (.ok w, s1) →
        (b.pull s1 w { RemoteName := "origin", Auth := auth, SingleBranch := true,
                       Force := true, Progress := .stdout }).1 = some e →
        errorsIs e NoErrAlreadyUpToDate = false →
        (pull b s r auth).err = some e)
    ∧ (((b.fetch s r { RemoteName := "origin", Auth := auth, Depth := depth,
                       Progress := .stdout }).1 = none
          ∨ ∃ e, (b.fetch s r { RemoteName := "origin", Auth := auth, Depth := depth,
                                Progress := .stdout }).1 = some e
              ∧ errorsIs e NoErrAlreadyUpToDate = true) →
        (∃ rest, (fetch b s r subPath branch auth depth).trace =
          Event.fetch r { RemoteName := "origin", Auth := auth, Depth := depth,
                          Progress := .stdout }
            :: Event.worktree r :: rest)
        ∧ (∀ e s2,
            b.worktree (b.fetch s r { RemoteName := "origin", Auth := auth, Depth := depth,
                                      Progress := .stdout }).2 r = (.error e, s2) →
            (fetch b s r subPath branch auth depth).err = some e
            ∧ (fetch b s r subPath branch auth depth).trace =
              [Event.fetch r { RemoteName := "origin", Auth := auth, Depth := depth,
                               Progress := .stdout },
               Event.worktree r])
        ∧ (∀ w s2 e s3,
            b.worktree (b.fetch s r { RemoteName := "origin", Auth := auth, Depth := depth,
                                      Progress := .stdout }).2 r = (.ok w, s2) →
            b.reference s2 r ("refs/remotes/origin/" ++ branch) true = (.error e, s3) →
            (fetch b s r subPath branch auth depth).err = some e
            ∧ (fetch b s r subPath branch auth depth).trace =
              [Event.fetch r { RemoteName := "origin", Auth := auth, Depth := depth,
                               Progress := .stdout },
               Event.worktree r,
               Event.reference r ("refs/remotes/origin/" ++ branch) true]))
    ∧ (∀ w s2 ref s3,
        ((b.fetch s r { RemoteName := "origin", Auth := auth, Depth := depth,
                        Progress := .stdout }).1 = none
          ∨ ∃ e, (b.fetch s r { RemoteName := "origin", Auth := auth, Depth := depth,
                                Progress := .stdout }).1 = some e
              ∧ errorsIs e NoErrAlreadyUpToDate = true) →
        b.worktree (b.fetch s r { RemoteName := "origin", Auth := auth, Depth := depth,
                                  Progress := .stdout }).2 r = (.ok w, s2) →
        b.reference s2 r ("refs/remotes/origin/" ++ branch) true = (.ok ref, s3) →
        (fetch b s r subPath branch auth depth).trace =
          [Event.fetch r { RemoteName := "origin", Auth := auth, Depth := depth,
                           Progress := .stdout },
           Event.worktree r,
           Event.reference r ("refs/remotes/origin/" ++ branch) true,
           Event.resetSparsely w { Commit := ref.Hash, Mode := .hardReset } [subPath]]
        ∧ (fetch b s r subPath branch auth depth).err =
          (b.resetSparsely s3 w { Commit := ref.Hash, Mode := .hardReset } [subPath]).1)
    ∧ (∀ e,
        (b.fetch s r { RemoteName := "origin", Auth := auth, Depth := depth,
                       Progress := .stdout }).1 = some e →
        errorsIs e NoErrAlreadyUpToDate = false →
        (fetch b s r subPath branch auth depth).err = some e
        ∧ (fetch b s r subPath branch auth depth).trace =
          [Event.fetch r { RemoteName := "origin", Auth := auth, Depth := depth,
                           Progress := .stdout }])
    ∧ (∀ gitAuth tr s1 r1 s2 w s3 e,
        resolveAuth b s repo = (.ok gitAuth, tr, s1) →
        b.plainOpen s1 repo.DestDir = (.ok r1, s2) →
        repo.Depth ≤ 0 →
        b.worktree s2 r1 = (.ok w, s3) →
        (b.pull s3 w { RemoteName := "origin", Auth := gitAuth, SingleBranch := true,
                       Force := true, Progress := .stdout }).1 = some e →
        errorsIs e NoErrAlreadyUpToDate = true →
        (sync b s repo).err = none)
    ∧ (∀ gitAuth tr s1 r1 s2 w s3 ref s4 e,
        resolveAuth b s repo = (.ok gitAuth, tr, s1) →
        b.plainOpen s1 repo.DestDir = (.ok r1, s2) →
        0 < repo.Depth →
        (b.fetch s2 r1 { RemoteName := "origin", Auth := gitAuth, Depth := repo.Depth,
                         Progress := .stdout }).1 = some e →
        errorsIs e NoErrAlreadyUpToDate = true →
        b.worktree (b.fetch s2 r1 { RemoteName := "origin", Auth := gitAuth,
                                    Depth := repo.Depth, Progress := .stdout }).2 r1
          = (.ok w, s3) →
        b.reference s3 r1 ("refs/remotes/origin/" ++ repo.Branch) true = (.ok ref, s4) →
        (b.resetSparsely s4 w { Commit := ref.Hash, Mode := .hardReset } [repo.SubPath]).1
          = none →
        (sync b s repo).err = none) := by
  have hpull : ∀ (s : σ) (r : ρ) (auth : AuthMethod),
      ((pull b s r auth).err = none ↔
        ∃ w s1, b.worktree s r = (.ok w, s1)
          ∧ ((b.pull s1 w { RemoteName := "origin", Auth := auth, SingleBranch := true,
                            Force := true, Progress := .stdout }).1 = none
            ∨ ∃ e, (b.pull s1 w { RemoteName := "origin", Auth := auth, SingleBranch := true,
                                  Force := true, Progress := .stdout }).1 = some e
                ∧ errorsIs e NoErrAlreadyUpToDate = true)) := by
    intro s r auth
    unfold pull
    rcases hw : b.worktree s r with ⟨rwt, s1⟩
    cases rwt with
    | error e => simp
    | ok w =>
      simp only [DefaultRemoteName]
      rcases hp : b.pull s1 w
        { RemoteName := "origin", Auth := auth, SingleBranch := true, Force := true,
          Progress := .stdout } with ⟨rp, s2⟩
      cases rp with
      | none =>
        simp only [true_iff]
        exact ⟨w, s1, rfl, Or.inl (by rw [hp])⟩
      | some e =>
        by_cases he : errorsIs e NoErrAlreadyUpToDate = true
        · simp only [he, if_true, true_iff]
          exact ⟨w, s1, rfl, Or.inr ⟨e, by rw [hp], he⟩⟩
        · simp only [he]
          constructor
          · intro h
            simp at h
          · rintro ⟨w1, s3, heq, h⟩
            cases heq
            rw [hp] at h
            rcases h with h | ⟨e1, h, he1⟩
            · cases h
            · simp only [Option.some.injEq] at h
              subst h
              exact absurd he1 he
  have hfetch : ∀ (s : σ) (r : ρ) (auth : AuthMethod) (subPath branch : String) (depth : Int)
      (w : ω) (s2 : σ) (ref : Reference) (s3 : σ),
      ((b.fetch s r { RemoteName := "origin", Auth := auth, Depth := depth,
                      Progress := .stdout }).1 = none
        ∨ ∃ e, (b.fetch s r { RemoteName := "origin", Auth := auth, Depth := depth,
                              Progress := .stdout }).1 = some e
            ∧ errorsIs e NoErrAlreadyUpToDate = true) →
      b.worktree (b.fetch s r { RemoteName := "origin", Auth := auth, Depth := depth,
                                Progress := .stdout }).2 r = (.ok w, s2) →
      b.reference s2 r ("refs/remotes/origin/" ++ branch) true = (.ok ref, s3) →
      (fetch b s r subPath branch auth depth).trace =
        [Event.fetch r { RemoteName := "origin", Auth := auth, Depth := depth,
                         Progress := .stdout },
         Event.worktree r,
         Event.reference r ("refs/remotes/origin/" ++ branch) true,
         Event.resetSparsely w { Commit := ref.Hash, Mode := .hardReset } [subPath]]
      ∧ (fetch b s r subPath branch auth depth).err =
        (b.resetSparsely s3 w { Commit := ref.Hash, Mode := .hardReset } [subPath]).1 := by
    intro s r auth subPath branch depth w s2 ref s3 hf hw hr
    have hname : NewRemoteReferenceName DefaultRemoteName branch
        = "refs/remotes/origin/" ++ branch := by
      simp only [NewRemoteReferenceName, DefaultRemoteName]
      apply String.ext
      simp only [String.data_append]
      rfl
    unfold fetch
    simp only [DefaultRemoteName] at hname ⊢
    rw [hname]
    rcases hf with hf | ⟨e, hf, he⟩
    · rw [hf]; simp only; rw [hw]; simp only; rw [hr]
      exact ⟨rfl, rfl⟩
    · rw [hf]; simp only [he, if_true]; rw [hw]; simp only; rw [hr]
      exact ⟨rfl, rfl⟩
  have hname : NewRemoteReferenceName DefaultRemoteName branch
      = "refs/remotes/origin/" ++ branch := by
    simp only [NewRemoteReferenceName, DefaultRemoteName]
    apply String.ext
    simp only [String.data_append]
    rfl
  refine ⟨hpull s r auth, ?_, ?_, hfetch s r auth subPath branch depth, ?_, ?_, ?_⟩
  · intro w s1 e hw hp he
    unfold pull
    rw [hw]
    simp only [DefaultRemoteName]
    rcases hq : b.pull s1 w
      { RemoteName := "origin", Auth := auth, SingleBranch := true, Force := true,
        Progress := .stdout } with ⟨rp, s2⟩
    rw [hq] at hp
    simp only at hp
    subst hp
    simp [he]
  · intro hf
    refine ⟨?_, ?_, ?_⟩
    · unfold fetch
      simp only [DefaultRemoteName]
      rcases hf with hf | ⟨e, hf, he⟩
      · rw [hf]
        simp only
        split
        · exact ⟨_, rfl⟩
        · split
          · exact ⟨_, rfl⟩
          · exact ⟨_, rfl⟩
      · rw [hf]
        simp only [he, if_true]
        split
        · exact ⟨_, rfl⟩
        · split
          · exact ⟨_, rfl⟩
          · exact ⟨_, rfl⟩
    · intro e s2 hw
      unfold fetch
      simp only [DefaultRemoteName]
      rcases hf with hf | ⟨e1, hf, he⟩
      · rw [hf]; simp only; rw [hw]
        exact ⟨rfl, rfl⟩
      · rw [hf]; simp only [he, if_true]; rw [hw]
        exact ⟨rfl, rfl⟩
    · intro w s2 e s3 hw hr
      unfold fetch
      simp only [DefaultRemoteName] at hname ⊢
      rw [hname]
      rcases hf with hf | ⟨e1, hf, he⟩
      · rw [hf]; simp only; rw [hw]; simp only; rw [hr]
        exact ⟨rfl, rfl⟩
      · rw [hf]; simp only [he, if_true]; rw [hw]; simp only; rw [hr]
        exact ⟨rfl, rfl⟩
  · intro e hf he
    unfold fetch
    simp only [DefaultRemoteName]
    rw [hf]
    simp only [he]
    exact ⟨rfl, rfl⟩
  · intro gitAuth tr s1 r1 s2 w s3 e hauth hopen hd hw hp he
    have hs : sync b s repo =
        (pull b s2 r1 gitAuth).after (tr ++ [.plainOpen repo.DestDir, pullLog repo]) := by
      unfold sync; rw [hauth]; simp only; rw [hopen]; simp only [hd, if_true]
    rw [hs]
    simp only [Run.after]
    exact (hpull s2 r1 gitAuth).mpr ⟨w, s3, hw, Or.inr ⟨e, hp, he⟩⟩
  · intro gitAuth tr s1 r1 s2 w s3 ref s4 e hauth hopen hd hf he hw hr hreset
    have hs : sync b s repo =
        (fetch b s2 r1 repo.SubPath repo.Branch gitAuth repo.Depth).after
          (tr ++ [.plainOpen repo.DestDir, fetchLog repo]) := by
      unfold sync; rw [hauth]; simp only; rw [hopen]; simp only [not_le.mpr hd, if_false]
    rw [hs]
    simp only [Run.after]
    rw [(hfetch s2 r1 gitAuth repo.SubPath repo.Branch repo.Depth w s3 ref s4
      (Or.inr ⟨e, hf, he⟩) hw hr).2]
    exact hreset

/-- C5, amended, evaluated: a pull and a fetch that report nothing new, a fetch
that reports nothing new on a branch the remote does not have, a pull and a
fetch that cannot reach the remote, and `sync` on an up-to-date destination
with depth 0 and with depth 2. -/
theorem up_to_date_is_success_witness :
    (pull demo ["out"] "out" (.basic ⟨"u", "t"⟩)).err = none
    ∧ (pull demo ["offline"] "offline" (.basic ⟨"u", "t"⟩)).err
        = some (.sentinel "network is unreachable")
    ∧ ((fetch demo ["out"] "out" "foo" "gone" (.basic ⟨"u", "t"⟩) 2).err
          = some (.sentinel "reference not found")
        ∧ (fetch demo ["out"] "out" "foo" "gone" (.basic ⟨"u", "t"⟩) 2).trace =
          [Event.fetch "out" { RemoteName := "origin", Auth := .basic ⟨"u", "t"⟩, Depth := 2,
                               Progress := .stdout },
           Event.worktree "out",
           Event.reference "out" ("refs/remotes/origin/" ++ "gone") true])
    ∧ ((fetch demo ["out"] "out" "foo" "main" (.basic ⟨"u", "t"⟩) 2).trace =
          [Event.fetch "out" { RemoteName := "origin", Auth := .basic ⟨"u", "t"⟩, Depth := 2,
                               Progress := .stdout },
           Event.worktree "out",
           Event.reference "out" ("refs/remotes/origin/" ++ "main") true,
           Event.resetSparsely "out" { Commit := "c0ffee", Mode := .hardReset } ["foo"]]
        ∧ (fetch demo ["out"] "out" "foo" "main" (.basic ⟨"u", "t"⟩) 2).err =
          (demo.resetSparsely ["out"] "out" { Commit := "c0ffee", Mode := .hardReset }
            ["foo"]).1)
    ∧ ((fetch demo ["offline"] "offline" "foo" "main" (.basic ⟨"u", "t"⟩) 2).err
          = some (.sentinel "network is unreachable")
        ∧ (fetch demo ["offline"] "offline" "foo" "main" (.basic ⟨"u", "t"⟩) 2).trace =
          [Event.fetch "offline" { RemoteName := "origin", Auth := .basic ⟨"u", "t"⟩,
                                   Depth := 2, Progress := .stdout }])
    ∧ (sync demo ["out"] demoRepo).err = none
    ∧ (sync demo ["out"] { demoRepo with Depth := 2 }).err = none :=
  ⟨(up_to_date_is_success demo ["out"] "out" (.basic ⟨"u", "t"⟩) "foo" "main" 2 demoRepo).1.mpr
      ⟨"out", ["out"], rfl, Or.inr ⟨NoErrAlreadyUpToDate, rfl, by decide⟩⟩,
   (up_to_date_is_success demo ["offline"] "offline" (.basic ⟨"u", "t"⟩) "foo" "main" 2
      demoRepo).2.1 "offline" ["offline"] (.sentinel "network is unreachable") rfl rfl
      (by decide),
   ((up_to_date_is_success demo ["out"] "out" (.basic ⟨"u", "t"⟩) "foo" "gone" 2
      demoRepo).2.2.1 (Or.inr ⟨NoErrAlreadyUpToDate, rfl, by decide⟩)).2.2 "out" ["out"]
      (.sentinel "reference not found") ["out"] rfl rfl,
   (up_to_date_is_success demo ["out"] "out" (.basic ⟨"u", "t"⟩) "foo" "main" 2
      demoRepo).2.2.2.1 "out" ["out"] { Name := "refs/remotes/origin/main", Hash := "c0ffee" }
      ["out"] (Or.inr ⟨NoErrAlreadyUpToDate, rfl, by decide⟩) rfl rfl,
   (up_to_date_is_success demo ["offline"] "offline" (.basic ⟨"u", "t"⟩) "foo" "main" 2
      demoRepo).2.2.2.2.1 (.sentinel "network is unreachable") rfl (by decide),
   (up_to_date_is_success demo ["out"] "out" (.basic ⟨"u", "t"⟩) "foo" "main" 2
      demoRepo).2.2.2.2.2.1 (.basic ⟨"u", "t"⟩) [] ["out"] "out" ["out"] "out" ["out"]
      NoErrAlreadyUpToDate rfl rfl (by decide) rfl rfl (by decide),
   (up_to_date_is_success demo ["out"] "out" (.basic ⟨"u", "t"⟩) "foo" "main" 2
      { demoRepo with Depth := 2 }).2.2.2.2.2.2 (.basic ⟨"u", "t"⟩) [] ["out"] "out" ["out"]
      "out" ["out"] { Name := "refs/remotes/origin/main", Hash := "c0ffee" } ["out"]
      NoErrAlreadyUpToDate rfl rfl (by decide) rfl (by decide) rfl rfl rfl⟩

/-- C5, as stated, fails: the descriptor `demoGoneBranchRepo` has depth 2 and
the branch `gone`, and its destination `out` holds a repository.  The fetch of
the backend reports `NoErrAlreadyUpToDate`, yet the look-up of the remote
reference fails, `sync` returns that error, and no reset is issued. -/
theorem up_to_date_fetch_then_missing_reference :
    (demo.fetch ["out"] "out"
        { RemoteName := "origin", Auth := .basic ⟨"u", "t"⟩, Depth := 2,
          Progress := .stdout }).1 = some NoErrAlreadyUpToDate
    ∧ (sync demo ["out"] demoGoneBranchRepo).err = some (.sentinel "reference not found")
    ∧ (sync demo ["out"] demoGoneBranchRepo).trace =
        [Event.plainOpen "out", fetchLog demoGoneBranchRepo,
         Event.fetch "out" { RemoteName := "origin", Auth := .basic ⟨"u", "t"⟩, Depth := 2,
                             Progress := .stdout },
         Event.worktree "out",
         Event.reference "out" "refs/remotes/origin/gone" true]
    ∧ (sync demo ["out"] demoGoneBranchRepo).trace.filter Event.isReset = [] := by
  refine ⟨rfl, by decide, rfl, rfl⟩

end Claims

section Claims

variable {σ ρ ω : Type}

/-- C8: the read of HEAD in the job is best effort.  When `sync` returns no
error, the job reads HEAD of the destination and ends with the entry
"Sync git repo completed." at level info, carrying the descriptor; that entry
is preceded by the entry "git show-ref --head HEAD: <hash>", carrying the
descriptor, exactly when the read succeeded, and no entry of the job is
logged at level error.  When `sync` returns an error, the job adds to the
events of `sync` the single entry "Sync git repo failed." at level error,
carrying the descriptor under `Repo` and the error under `error`; it is the
only entry at level error, and HEAD is not read.  The job itself returns
nothing: no error leaves it. -/
theorem job_head_best_effort (b : Backend σ ρ ω) (s : σ) (repo : Repo) :
    ((sync b s repo).err = none →
      (∀ ref tr s1, head b (sync b s repo).state repo.DestDir = (.ok ref, tr, s1) →
        job b s repo =
          ((sync b s repo).trace ++ tr
            ++ [Event.log .info ("git show-ref --head HEAD: " ++ ref.Hash) [.repo "Repo" repo],
                Event.log .info "Sync git repo completed." [.repo "Repo" repo]], s1))
      ∧ (∀ e tr s1, head b (sync b s repo).state repo.DestDir = (.error e, tr, s1) →
        job b s repo =
          ((sync b s repo).trace ++ tr
            ++ [Event.log .info "Sync git repo completed." [.repo "Repo" repo]], s1))
      ∧ Event.log .info "Sync git repo completed." [.repo "Repo" repo] ∈ (job b s repo).1
      ∧ (∀ ev ∈ (job b s repo).1, ev.isErrorLog = false)
      ∧ ((∃ ev ∈ (job b s repo).1, ev.isHeadLog = true) ↔
          ∃ ref, (head b (sync b s repo).state repo.DestDir).1 = .ok ref))
    ∧ (∀ e, (sync b s repo).err = some e →
      job b s repo =
        ((sync b s repo).trace
          ++ [Event.log .error "Sync git repo failed." [.repo "Repo" repo, .err "error" e]],
         (sync b s repo).state)
      ∧ (job b s repo).1.filter Event.isErrorLog =
          [Event.log .error "Sync git repo failed." [.repo "Repo" repo, .err "error" e]]
      ∧ ∀ ev ∈ (job b s repo).1, ev.isHead = false) := by
  simpa only [failedLog, headLog, completedLog] using job_events b s repo

/-- C8, evaluated: a job whose sync succeeds and whose read of HEAD succeeds,
one whose read of HEAD fails, and one whose sync fails. -/
theorem job_head_best_effort_witness :
    (job demo ["out"] demoRepo =
        ((sync demo ["out"] demoRepo).trace ++ [Event.plainOpen "out", Event.head "out"]
          ++ [Event.log .info ("git show-ref --head HEAD: " ++ "c0ffee") [.repo "Repo" demoRepo],
              Event.log .info "Sync git repo completed." [.repo "Repo" demoRepo]],
         ["out"]))
    ∧ (job demo ["unborn"] demoUnbornRepo =
        ((sync demo ["unborn"] demoUnbornRepo).trace
          ++ [Event.plainOpen "unborn", Event.head "unborn"]
          ++ [Event.log .info "Sync git repo completed." [.repo "Repo" demoUnbornRepo]],
         ["unborn"])
      ∧ Event.log .info "Sync git repo completed." [.repo "Repo" demoUnbornRepo]
          ∈ (job demo ["unborn"] demoUnbornRepo).1
      ∧ (∀ ev ∈ (job demo ["unborn"] demoUnbornRepo).1, ev.isErrorLog = false))
    ∧ (job demo ["offline"] demoOfflineRepo =
        ((sync demo ["offline"] demoOfflineRepo).trace
          ++ [Event.log .error "Sync git repo failed."
                [.repo "Repo" demoOfflineRepo, .err "error" (.sentinel "network is unreachable")]],
         (sync demo ["offline"] demoOfflineRepo).state)
      ∧ (job demo ["offline"] demoOfflineRepo).1.filter Event.isErrorLog
          = [Event.log .error "Sync git repo failed."
              [.repo "Repo" demoOfflineRepo, .err "error" (.sentinel "network is unreachable")]]
      ∧ ∀ ev ∈ (job demo ["offline"] demoOfflineRepo).1, ev.isHead = false) :=
  ⟨((job_head_best_effort demo ["out"] demoRepo).1 (by decide)).1
      { Name := "HEAD", Hash := "c0ffee" } _ ["out"] rfl,
   let h := (job_head_best_effort demo ["unborn"] demoUnbornRepo).1 (by decide)
   ⟨h.2.1 (.sentinel "reference not found") _ ["unborn"] rfl, h.2.2.1, h.2.2.2.1⟩,
   (job_head_best_effort demo ["offline"] demoOfflineRepo).2
      (.sentinel "network is unreachable") (by decide)⟩

end Claims

section Claims

variable {σ ρ ω : Type}

/-- C3, on the code: the descriptor `demoRepo` has `subPath = "foo"` and depth
0, and its destination `out` holds a repository, so `sync` takes the pull
path.  It succeeds; the only call that writes the working tree is
`Worktree.Pull`, issued with the remote name, the credential, the single
branch, the force and the progress options only; no call of the run carries
the sparse restriction `["foo"]`, and none carries any restriction at all. -/
theorem sync_pull_path_has_no_sparse_restriction :
    (sync demo ["out"] demoRepo).err = none
    ∧ (sync demo ["out"] demoRepo).trace =
        [Event.plainOpen "out", pullLog demoRepo, Event.worktree "out",
         Event.pull "out" { RemoteName := "origin", Auth := .basic ⟨"u", "t"⟩,
                            SingleBranch := true, Force := true, Progress := .stdout }]
    ∧ (sync demo ["out"] demoRepo).trace.filter Event.writesWorktree =
        [Event.pull "out" { RemoteName := "origin", Auth := .basic ⟨"u", "t"⟩,
                            SingleBranch := true, Force := true, Progress := .stdout }]
    ∧ (sync demo ["out"] demoRepo).trace.map Event.sparseDirs? = [none, none, none, none] := by
  refine ⟨by decide, rfl, rfl, rfl⟩

/-- C4, as stated, fails: the descriptor `demoShallowRepo` has no sub-path and
depth 1, and its destination `out` holds a repository, so `sync` takes the
shallow refresh.  The hard reset is issued with the list `[""]`, one element
that is the empty string, not with the empty list; `checkout` with the same
empty sub-path passes no sparse directories. -/
theorem sync_shallow_reset_passes_empty_sub_path :
    (sync demo ["out"] demoShallowRepo).trace =
        [Event.plainOpen "out", fetchLog demoShallowRepo,
         Event.fetch "out" { RemoteName := "origin", Auth := .basic ⟨"u", "t"⟩, Depth := 1,
                             Progress := .stdout },
         Event.worktree "out",
         Event.reference "out" "refs/remotes/origin/main" true,
         Event.resetSparsely "out" { Commit := "c0ffee", Mode := .hardReset } [""]]
    ∧ (sync demo ["out"] demoShallowRepo).trace.filterMap Event.sparseDirs? = [[""]]
    ∧ ([""] : List String) ≠ []
    ∧ (sync demo [] demoShallowRepo).trace.filterMap Event.sparseDirs? = [[]] := by
  refine ⟨rfl, rfl, by decide, rfl⟩

/-- C4, amended: the sub-paths of the shallow refresh.  On a present
destination with a positive depth, every restriction carried by a call of
`sync` is the singleton `[subPath]`, and with the fetch tolerated, the working
tree at hand and the remote reference found the hard reset is issued with
it.  For an empty sub-path that list is `[""]`, not the empty list; its one
directory, the empty string, is a prefix of every name, so the reset keeps
every entry, as it does for the empty list: the whole tree is reset.  For any
sub-path the reset keeps exactly the entries whose name starts with it.
`checkout`, by contrast, carries the empty list for an empty sub-path and the
singleton otherwise. -/
theorem shallow_reset_sub_paths (b : Backend σ ρ ω) (s : σ) (repo : Repo)
    (gitAuth : AuthMethod) (tr : List (Event ρ ω)) (s1 : σ) (r : ρ) (s2 : σ)
    (hauth : resolveAuth b s repo = (.ok gitAuth, tr, s1))
    (hopen : b.plainOpen s1 repo.DestDir = (.ok r, s2))
    (hdepth : 0 < repo.Depth) :
    (∀ ev ∈ (sync b s repo).trace, ∀ dirs, ev.sparseDirs? = some dirs → dirs = [repo.SubPath])
    ∧ (∀ w s3 ref s4,
        ((b.fetch s2 r { RemoteName := "origin", Auth := gitAuth, Depth := repo.Depth,
                         Progress := .stdout }).1 = none
          ∨ ∃ e, (b.fetch s2 r { RemoteName := "origin", Auth := gitAuth, Depth := repo.Depth,
                                 Progress := .stdout }).1 = some e
              ∧ errorsIs e NoErrAlreadyUpToDate = true) →
        b.worktree (b.fetch s2 r { RemoteName := "origin", Auth := gitAuth,
                                   Depth := repo.Depth, Progress := .stdout }).2 r
          = (.ok w, s3) →
        b.reference s3 r (NewRemoteReferenceName DefaultRemoteName repo.Branch) true
          = (.ok ref, s4) →
        Event.resetSparsely w { Commit := ref.Hash, Mode := .hardReset } [repo.SubPath]
          ∈ (sync b s repo).trace)
    ∧ (repo.SubPath = "" →
        [repo.SubPath] = [""] ∧ [repo.SubPath] ≠ ([] : List String)
        ∧ ∀ name, resetKeeps [repo.SubPath] name = true ∧ resetKeeps [] name = true)
    ∧ (∀ name, resetKeeps [repo.SubPath] name = stringsHasPrefix name repo.SubPath)
    ∧ (∀ s0 url auth destDir depth,
        ∀ ev ∈ (checkout b s0 url repo.Branch repo.SubPath auth destDir depth).trace,
          ∀ dirs, ev.sparseDirs? = some dirs →
            dirs = if repo.SubPath = "" then [] else [repo.SubPath]) := by
  have hs : sync b s repo =
      (fetch b s2 r repo.SubPath repo.Branch gitAuth repo.Depth).after
        (tr ++ [.plainOpen repo.DestDir, fetchLog repo]) := by
    unfold sync; rw [hauth]; simp only; rw [hopen]; simp only [not_le.mpr hdepth, if_false]
  have htr : (resolveAuth b s repo).2.1 = tr := by rw [hauth]
  refine ⟨?_, ?_, ?_, ?_, ?_⟩
  · intro ev hev dirs hd
    rw [hs] at hev
    simp only [Run.after, List.mem_append, List.mem_cons, List.mem_singleton,
      List.not_mem_nil, or_false] at hev
    rcases hev with (h | h | h) | h
    · have := resolveAuth_trace b s repo ev (by rw [htr]; exact h)
      cases ev <;> simp_all [Event.isAuthStep, Event.sparseDirs?]
    · subst h; simp [Event.sparseDirs?] at hd
    · subst h; simp [fetchLog, Event.sparseDirs?] at hd
    · exact fetch_sparse b s2 r _ _ _ _ ev h dirs hd
  · intro w s3 ref s4 hf hw hr
    rw [hs]
    simp only [Run.after]
    exact List.mem_append_right _
      (fetch_reset_issued b s2 r repo.SubPath repo.Branch gitAuth repo.Depth w s3 ref s4 hf hw hr)
  · intro hsub
    rw [hsub]
    refine ⟨rfl, by simp, ?_⟩
    intro name
    simp [resetKeeps, stringsHasPrefix]
  · intro name
    simp [resetKeeps]
  · intro s0 url auth destDir depth
    exact checkout_sparse b s0 url repo.Branch repo.SubPath auth destDir depth

/-- C4, amended, evaluated on the descriptor `demoShallowRepo` (no sub-path,
depth 1) with its destination present. -/
theorem shallow_reset_sub_paths_witness :
    (∀ ev ∈ (sync demo ["out"] demoShallowRepo).trace, ∀ dirs,
        ev.sparseDirs? = some dirs → dirs = [""])
    ∧ Event.resetSparsely "out" { Commit := "c0ffee", Mode := .hardReset } [""]
        ∈ (sync demo ["out"] demoShallowRepo).trace
    ∧ ([""] = [""] ∧ [""] ≠ ([] : List String)
        ∧ ∀ name, resetKeeps [""] name = true ∧ resetKeeps [] name = true) :=
  let h := shallow_reset_sub_paths demo ["out"] demoShallowRepo (.basic ⟨"u", "t"⟩) [] ["out"]
    "out" ["out"] rfl rfl (by decide)
  ⟨h.1,
   h.2.1 "out" ["out"] { Name := "refs/remotes/origin/main", Hash := "c0ffee" } ["out"]
    (Or.inr ⟨NoErrAlreadyUpToDate, rfl, by decide⟩) rfl rfl,
   h.2.2.1 rfl⟩

end Claims

section Claims

/-- C10, as stated, fails: with the access token `Branch` and the four identity
fields empty, the token occurs in the text of the descriptor (inside the label
`, Branch:`) although it occurs in none of the URL, the branch, the sub-path
and the destination. -/
theorem repo_string_label_contains_token :
    demoLabelTokenRepo.String = "URL:, Branch:, SubPath:, DestDir:"
    ∧ occursIn demoLabelTokenRepo.Auth.AccessToken demoLabelTokenRepo.String
    ∧ ¬ (occursIn demoLabelTokenRepo.Auth.AccessToken demoLabelTokenRepo.URL
        ∨ occursIn demoLabelTokenRepo.Auth.AccessToken demoLabelTokenRepo.Branch
        ∨ occursIn demoLabelTokenRepo.Auth.AccessToken demoLabelTokenRepo.SubPath
        ∨ occursIn demoLabelTokenRepo.Auth.AccessToken demoLabelTokenRepo.DestDir) := by
  refine ⟨by decide, ⟨"URL:, ".data, ":, SubPath:, DestDir:".data, by decide⟩, ?_⟩
  simp only [occursIn, demoLabelTokenRepo]
  decide

/-- C10, amended: the text of a descriptor depends on its URL, branch, sub-path
and destination only.  Two descriptors that agree on these four fields have
the same text, whatever their credentials, depth and schedule are; hence a
text (the access token, the passphrase of the key, or any other) occurs in
the text of a descriptor exactly when it occurs in the text of the same
descriptor with the credentials, the depth and the schedule erased. -/
theorem repo_string_ignores_credentials (r1 r2 : Repo)
    (hurl : r1.URL = r2.URL) (hbranch : r1.Branch = r2.Branch)
    (hsub : r1.SubPath = r2.SubPath) (hdest : r1.DestDir = r2.DestDir) :
    r1.String = r2.String
    ∧ r1.String = r1.identityOnly.String
    ∧ ∀ secret, occursIn secret r1.String ↔ occursIn secret r2.identityOnly.String := by
  have h : r1.String = r2.String := by
    simp only [Repo.String, hurl, hbranch, hsub, hdest]
  refine ⟨h, rfl, ?_⟩
  intro secret
  rw [h]
  exact Iff.rfl

/-- C10, amended, evaluated on two descriptors that differ in every field but
the four of the identity. -/
theorem repo_string_ignores_credentials_witness :
    demoRepo.String = demoOtherCredentials.String
    ∧ demoRepo.String = demoRepo.identityOnly.String
    ∧ ∀ secret, occursIn secret demoRepo.String ↔ occursIn secret demoOtherCredentials.identityOnly.String :=
  repo_string_ignores_credentials demoRepo demoOtherCredentials rfl rfl rfl rfl

end Claims

section Claims

variable {σ ρ ω : Type}

/-- C9, as stated, fails: with the home directory `/home/u`, the key file
`~/../other/.ssh/id_rsa` starts with `~/`, and the path handed to the key
loader is `/home/other/.ssh/id_rsa`, which does not lie under `/home/u`. -/
theorem key_file_expansion_leaves_home :
    stringsHasPrefix demoEscapeRepo.Auth.PrivateKeyFile "~/" = true
    ∧ (demo.userHomeDir []).1.1 = "/home/u"
    ∧ (resolveAuth demo [] demoEscapeRepo).2.1 =
        [Event.userHomeDir, Event.newPublicKeysFromFile "git" "/home/other/.ssh/id_rsa" ""]
    ∧ (expandKeyFile demo [] demoEscapeRepo.Auth.PrivateKeyFile).1 = "/home/other/.ssh/id_rsa"
    ∧ liesUnder (demo.userHomeDir []).1.1
        (expandKeyFile demo [] demoEscapeRepo.Auth.PrivateKeyFile).1 = false := by
  refine ⟨by decide, rfl, rfl, by decide, by decide⟩

/-- C9, amended: the expansion of the key file.  For a URL that does not start
with `http`: when the key file starts with `~/`, the home directory is looked
up and the path handed to the key loader is `filepath.Join` of the home
directory (as `os.UserHomeDir` returned it) and the key file without its first
two characters; that path lies under the home directory when the home
directory is a rooted clean path and the remainder has no `..` element.  When
the key file does not start with `~/`, the home directory is not looked up
and the key file is handed over unchanged. -/
theorem key_file_expansion (b : Backend σ ρ ω) (s : σ) (repo : Repo)
    (hurl : stringsHasPrefix repo.URL "http" = false) :
    (stringsHasPrefix repo.Auth.PrivateKeyFile "~/" = true →
      (resolveAuth b s repo).2.1 =
        [Event.userHomeDir,
         Event.newPublicKeysFromFile repo.Auth.User
          (filepathJoin [(b.userHomeDir s).1.1, sliceFrom repo.Auth.PrivateKeyFile 2])
          repo.Auth.PrivateKeyPassphrase]
      ∧ (stringsHasPrefix (b.userHomeDir s).1.1 "/" = true →
          filepathClean (b.userHomeDir s).1.1 = (b.userHomeDir s).1.1 →
          ['.', '.'] ∉ (sliceFrom repo.Auth.PrivateKeyFile 2).data.splitOn '/' →
          liesUnder (b.userHomeDir s).1.1
            (filepathJoin [(b.userHomeDir s).1.1, sliceFrom repo.Auth.PrivateKeyFile 2])
            = true))
    ∧ (stringsHasPrefix repo.Auth.PrivateKeyFile "~/" = false →
      (resolveAuth b s repo).2.1 =
        [Event.newPublicKeysFromFile repo.Auth.User repo.Auth.PrivateKeyFile
          repo.Auth.PrivateKeyPassphrase]) := by
  constructor
  · intro hk
    refine ⟨?_, fun hroot hclean hdd => filepathJoin_liesUnder _ _ hroot hclean hdd⟩
    unfold resolveAuth
    rw [if_neg (by simp [hurl])]
    unfold expandKeyFile
    rw [if_pos hk]
    rcases b.userHomeDir s with ⟨⟨homedir, e⟩, s1⟩
    simp only
    split <;> rfl
  · intro hk
    unfold resolveAuth
    rw [if_neg (by simp [hurl])]
    unfold expandKeyFile
    rw [if_neg (by simp [hk])]
    simp only
    split <;> rfl

/-- C9, amended, evaluated: the key files `~/.ssh/id_rsa`, `~` and
`~git/.ssh/id_rsa` with the home directory `/home/u`. -/
theorem key_file_expansion_witness :
    ((resolveAuth demo [] demoSshRepo).2.1 =
        [Event.userHomeDir,
         Event.newPublicKeysFromFile "git"
          (filepathJoin [(demo.userHomeDir []).1.1, sliceFrom "~/.ssh/id_rsa" 2]) ""]
      ∧ filepathJoin [(demo.userHomeDir []).1.1, sliceFrom "~/.ssh/id_rsa" 2]
          = "/home/u/.ssh/id_rsa"
      ∧ liesUnder (demo.userHomeDir []).1.1
          (filepathJoin [(demo.userHomeDir []).1.1, sliceFrom "~/.ssh/id_rsa" 2]) = true)
    ∧ (resolveAuth demo [] demoTildeRepo).2.1 = [Event.newPublicKeysFromFile "git" "~" ""]
    ∧ (resolveAuth demo [] demoTildeUserRepo).2.1 =
        [Event.newPublicKeysFromFile "git" "~git/.ssh/id_rsa" ""] :=
  ⟨let h := (key_file_expansion demo [] demoSshRepo (by decide)).1 (by decide)
   ⟨h.1, by decide, h.2 (by decide) (by decide) (by decide)⟩,
   (key_file_expansion demo [] demoTildeRepo (by decide)).2 (by decide),
   (key_file_expansion demo [] demoTildeUserRepo (by decide)).2 (by decide)⟩

end Claims

end MultiGitSync
